import Mathlib

/-!
# inkcpp: the restorable stacks

A shallow embedding of `inkcpp/simple_restorable_stack.h` and `inkcpp/stack.cpp`:
the generic snapshot stack `simple_restorable_stack<T>`, the call/variable stack
`basic_stack` and the evaluation stack `basic_eval_stack`.

Conventions of the embedding.

* `size_t` values are natural numbers below `2 ^ 64`; `++`, `--` and `-` wrap modulo
  `2 ^ 64` (`winc`, `wdec`, `wsub`).  `InvalidIndex` is `~0`, that is `2 ^ 64 - 1`.
* The buffer is a list of slots.  An access `_buffer[i]` with `i` outside the list is
  undefined behaviour in C++; the embedding reports it as `Fault.OutOfBounds`.
* `inkAssert (cond, msg)` is a failing operation: the method returns `Except.error`
  with the error kind the assertion stands for, and no state.  Where the state left by a
  failing call matters (`push_exec`), the embedding returns it with the outcome.
* A `const` method is a function of the state only.
-/

set_option linter.unusedSectionVars false
set_option linter.unnecessarySeqFocus false

namespace ink

/-- Ways in which an operation can fail.  The first four are the `inkAssert`s of the
sources, sorted by what they guard; `OutOfBounds` is an access outside the buffer, which
no assertion guards; `OutOfFuel` is a loop of the source that does not end. -/
inductive Fault
  | InvalidArgument
  | Overflow
  | Underflow
  | InvalidState
  | OutOfBounds
  | OutOfFuel
  deriving DecidableEq

deriving instance DecidableEq for Except

/-- The number of values of `size_t`. -/
def wordSize : Nat := 2 ^ 64

/-- The constant `InvalidIndex = ~0` of type `size_t`. -/
def InvalidIndex : Nat := 2 ^ 64 - 1

/-- The result of `x++` or `x + 1` on a `size_t`. -/
def winc (x : Nat) : Nat := (x + 1) % wordSize

/-- The result of `--x` or `x - 1` on a `size_t`. -/
def wdec (x : Nat) : Nat := (x + wordSize - 1) % wordSize

/-- The result of `x - y` on `size_t`. -/
def wsub (x y : Nat) : Nat := (x + wordSize - y % wordSize) % wordSize

/-! ## `simple_restorable_stack<T>` -/

/-- The fields of `simple_restorable_stack<T>`. -/
structure simple_restorable_stack (T : Type) where
  _buffer : List T
  _size : Nat
  _null : T
  _pos : Nat
  _save : Nat
  _jump : Nat
  deriving DecidableEq

namespace simple_restorable_stack

variable {T : Type} [DecidableEq T]

/-- The constructor `simple_restorable_stack(T* buffer, size_t size, const T& null)`:
`_pos = 0`, `_save = _jump = InvalidIndex`. -/
def create (buffer : List T) (size : Nat) (null : T) : simple_restorable_stack T :=
  { _buffer := buffer, _size := size, _null := null,
    _pos := 0, _save := InvalidIndex, _jump := InvalidIndex }

/-- The method `push(const T& value)`. -/
def push (s : simple_restorable_stack T) (value : T) :
    Except Fault (simple_restorable_stack T) :=
  if value = s._null then .error .InvalidArgument
  else
    -- Don't overwrite saved data. Jump over it and record where we jumped from
    let s1 : simple_restorable_stack T :=
      if s._save ≠ InvalidIndex ∧ s._pos < s._save then
        { s with _jump := s._pos, _pos := s._save }
      else s
    if ¬ s1._pos < s1._size then .error .Overflow
    else if s1._pos < s1._buffer.length then
      .ok { s1 with _buffer := s1._buffer.set s1._pos value, _pos := winc s1._pos }
    else .error .OutOfBounds

/-- The method `push(const T& value)` statement by statement, keeping what `push` drops:
the fields and the buffer as the call leaves them, also when an assertion fails (the state
at the moment the assertion fires), together with the outcome. -/
def push_exec (s : simple_restorable_stack T) (value : T) :
    simple_restorable_stack T × Except Fault Unit :=
  if value = s._null then (s, .error .InvalidArgument)
  else
    -- Don't overwrite saved data. Jump over it and record where we jumped from
    let s1 : simple_restorable_stack T :=
      if s._save ≠ InvalidIndex ∧ s._pos < s._save then
        { s with _jump := s._pos, _pos := s._save }
      else s
    if ¬ s1._pos < s1._size then (s1, .error .Overflow)
    else if s1._pos < s1._buffer.length then
      ({ s1 with _buffer := s1._buffer.set s1._pos value, _pos := winc s1._pos }, .ok ())
    else (s1, .error .OutOfBounds)

/-- The method `pop()`: the element returned and the state after. -/
def pop (s : simple_restorable_stack T) : Except Fault (T × simple_restorable_stack T) :=
  if ¬ s._pos > 0 then .error .Underflow
  else
    -- Move over jump area
    let p := if s._pos = s._save then s._jump else s._pos
    -- Decrement and return
    let p1 := wdec p
    match s._buffer[p1]? with
    | some x => .ok (x, { s with _pos := p1 })
    | none => .error .OutOfBounds

/-- The method `top() const`. -/
def top (s : simple_restorable_stack T) : Except Fault T :=
  if s._pos = s._save then
    if ¬ s._jump > 0 then .error .Underflow
    else
      match s._buffer[wdec s._jump]? with
      | some x => .ok x
      | none => .error .OutOfBounds
  else if ¬ s._pos > 0 then .error .Underflow
  else
    match s._buffer[wdec s._pos]? with
    | some x => .ok x
    | none => .error .OutOfBounds

/-- The method `size() const`. -/
def size (s : simple_restorable_stack T) : Nat :=
  -- If we're past the save point, ignore anything in the jump region
  if s._pos ≥ s._save then wsub s._pos (wsub s._save s._jump)
  -- Otherwise, pos == size
  else s._pos

/-- The method `empty() const`. -/
def empty (s : simple_restorable_stack T) : Bool := decide (s._pos = 0)

/-- The method `clear()`. -/
def clear (s : simple_restorable_stack T) : simple_restorable_stack T :=
  { s with _save := InvalidIndex, _jump := InvalidIndex, _pos := 0 }

/-- The method `save()`. -/
def save (s : simple_restorable_stack T) : Except Fault (simple_restorable_stack T) :=
  if ¬ s._save = InvalidIndex then .error .InvalidState
  else .ok { s with _save := s._pos, _jump := s._pos }

/-- The method `restore()`. -/
def restore (s : simple_restorable_stack T) : Except Fault (simple_restorable_stack T) :=
  if ¬ s._save ≠ InvalidIndex then .error .InvalidState
  else .ok { s with _pos := s._save, _save := InvalidIndex, _jump := InvalidIndex }

/-- The loop `for (i = start; i < start + count; i++) buffer[i] = null`. -/
def nullify (null : T) : List T → Nat → Nat → List T
  | buffer, _, 0 => buffer
  | buffer, i, count + 1 => nullify null (buffer.set i null) (i + 1) count

/-- The method `forget()`.  The guard of the loop is commented out in the source, so the
loop over `[_jump, _save)` always runs. -/
def forget (s : simple_restorable_stack T) : Except Fault (simple_restorable_stack T) :=
  if ¬ s._save ≠ InvalidIndex then .error .InvalidState
  else if s._jump < s._save ∧ s._buffer.length < s._save then .error .OutOfBounds
  else
    .ok { s with _buffer := nullify s._null s._buffer s._jump (s._save - s._jump),
                 _save := InvalidIndex }

/-- The loop `while (*iterator == _null) iterator--;` of `iter`, entered with the
iterator at `_buffer + (c - 1)`; `c = 0` is the position one slot before the buffer, which
the loop reads before the caller tests `iterator < _buffer`. -/
def iter_skip (s : simple_restorable_stack T) : Nat → Except Fault Int
  | 0 => .error .OutOfBounds
  | c + 1 =>
    match s._buffer[c]? with
    | none => .error .OutOfBounds
    | some x => if x = s._null then iter_skip s c else .ok (c : Int)

/-- The method `iter(const T*& iterator) const`.  A pointer is `none` for `nullptr` and
`some k` for `_buffer + k`; the result is the returned flag and the new iterator. -/
def iter (s : simple_restorable_stack T) (iterator : Option Int) :
    Except Fault (Bool × Option Int) :=
  -- If empty, nothing to iterate
  if s._pos = 0 then .ok (false, iterator)
  else
    match iterator with
    | none => .ok (true, some ((s._pos : Int) - 1))
    | some k =>
      -- Begin at the top of the stack
      if k < 0 ∨ k > (s._pos : Int) then .ok (true, some ((s._pos : Int) - 1))
      else
        -- Move over stored data
        let k1 : Int := if k = (s._save : Int) then (s._jump : Int) else k
        -- Run backwards, skip nulls
        match iter_skip s k1.toNat with
        | .error e => .error e
        | .ok k2 => if k2 < 0 then .ok (false, none) else .ok (true, some k2)

/-- The elements a caller obtains by calling `iter` again and again, starting from
`iterator`, reading `*iterator` after every call that returns `true`; it stops at the
first call that returns `false` or faults, and after `fuel` calls. -/
def iterate (s : simple_restorable_stack T) : Nat → Option Int → List T
  | 0, _ => []
  | fuel + 1, iterator =>
    match iter s iterator with
    | .ok (true, some k) =>
      if k < 0 then []
      else
        match s._buffer[k.toNat]? with
        | some x => x :: iterate s fuel (some k)
        | none => []
    | _ => []

/-- State changes of a `simple_restorable_stack<T>`. -/
inductive Op (T : Type)
  | push (value : T)
  | pop
  | save
  | restore
  | forget
  | clear
  deriving DecidableEq

/-- One call: the state after it, if the call does not fail. -/
def step (s : simple_restorable_stack T) : Op T → Except Fault (simple_restorable_stack T)
  | .push v => s.push v
  | .pop => (s.pop).map Prod.snd
  | .save => s.save
  | .restore => s.restore
  | .forget => s.forget
  | .clear => .ok s.clear

/-- A sequence of calls, none of which fails. -/
def run (s : simple_restorable_stack T) : List (Op T) → Except Fault (simple_restorable_stack T)
  | [] => .ok s
  | op :: ops =>
    match s.step op with
    | .ok s1 => run s1 ops
    | .error e => .error e

/-- The states a stack built over a buffer of `size` slots can be in after calls none of
which failed. -/
def Reachable (s : simple_restorable_stack T) : Prop :=
  ∃ (buffer : List T) (null : T) (ops : List (Op T)),
    buffer.length < InvalidIndex ∧ (create buffer buffer.length null).run ops = .ok s

/-- Calls that are a `push` or a `pop`. -/
def Op.isPushPop : Op T → Bool
  | .push _ => true
  | .pop => true
  | _ => false

/-- What calls made under a snapshot taken in state `s0` leave alone: the snapshot index
and the slots below it. -/
def Kept (s0 s : simple_restorable_stack T) : Prop :=
  s._save = s0._pos ∧ s._size = s0._size ∧ s._null = s0._null ∧
    ∀ i, i < s0._pos → s._buffer[i]? = s0._buffer[i]?

/-- A stack of capacity 5 over the numbers, null value `0`, after `push 1`, `push 2`. -/
def exAB : simple_restorable_stack Nat :=
  { _buffer := [1, 2, 0, 0, 0], _size := 5, _null := 0, _pos := 2,
    _save := InvalidIndex, _jump := InvalidIndex }

/-- The stack `exAB` after `save`, `pop`, `push 3`. -/
def exSavedPopPush : simple_restorable_stack Nat :=
  { _buffer := [1, 2, 3, 0, 0], _size := 5, _null := 0, _pos := 3, _save := 2, _jump := 1 }

/-- The stack `exAB` after `save`, `pop`, `push 3`, `pop`: the cursor is back at the
snapshot index and the slot below it is bypassed. -/
def exRelocated : simple_restorable_stack Nat :=
  { _buffer := [1, 2, 3, 0, 0], _size := 5, _null := 0, _pos := 2, _save := 2, _jump := 1 }

/-- A stack of capacity 5 after `push 1`, `save`, `pop`, `push 2`, `pop`: no element is left
under the snapshot. -/
def exEmptied : simple_restorable_stack Nat :=
  { _buffer := [1, 2, 0, 0, 0], _size := 5, _null := 0, _pos := 1, _save := 1, _jump := 0 }

/-- The stack `exSavedPopPush` after `forget`. -/
def exForgotten : simple_restorable_stack Nat :=
  { _buffer := [1, 0, 3, 0, 0], _size := 5, _null := 0, _pos := 3,
    _save := InvalidIndex, _jump := 1 }

/-- The stack `exForgotten` after one `pop`. -/
def exForgottenPopped : simple_restorable_stack Nat :=
  { _buffer := [1, 0, 3, 0, 0], _size := 5, _null := 0, _pos := 2,
    _save := InvalidIndex, _jump := 1 }

/-- A stack of capacity 2 after `push 1`, `save`, `pop`. -/
def exSnapshotHeld : simple_restorable_stack Nat :=
  { _buffer := [1, 0], _size := 2, _null := 0, _pos := 0, _save := 1, _jump := 1 }

/-- The logical stack, bottom first, as the specification words it: the slots
`[0, _jump)` followed by `[_save, _pos)` when a snapshot is outstanding and
`_pos >= _save`, and the slots `[0, _pos)` otherwise. -/
def logical (s : simple_restorable_stack T) : List T :=
  if s._save ≠ InvalidIndex ∧ s._pos ≥ s._save then
    s._buffer.take s._jump ++ (s._buffer.drop s._save).take (s._pos - s._save)
  else s._buffer.take s._pos

/-- What iteration is to produce, as the specification words it: the non-null elements of
the logical stack from top to bottom. -/
def logical_iteration (s : simple_restorable_stack T) : List T :=
  s.logical.reverse.filter fun x => decide (x ≠ s._null)

/-- A stack of capacity 2 after `save`, `forget`. -/
def exJumpLeft : simple_restorable_stack Nat :=
  { _buffer := [0, 0], _size := 2, _null := 0, _pos := 0, _save := InvalidIndex, _jump := 0 }

/-- Whether `_jump` holds an index after the calls `ops` on a new stack: the last of the
calls `save`, `restore` and `clear` among them is a `save`.  A `forget` does not count:
it resets `_save` only. -/
def jump_set : List (Op T) → Bool
  | ops => ops.foldl (fun b op =>
      match op with
      | .save => true
      | .restore => false
      | .clear => false
      | _ => b) false

/-- The elements pushed and not yet popped after the calls `ops` on a new stack, the most
recent first, as the specification words the stack: `push` adds an element, `pop` removes
the most recent one, `save` records the elements, `restore` brings the recorded elements
back, `forget` keeps the current ones, `clear` removes all.  The second component is the
record of the snapshot. -/
def pushed_not_popped : List (Op T) → List T × Option (List T)
  | ops => ops.foldl (fun st op =>
      match op with
      | .push v => (v :: st.1, st.2)
      | .pop => (st.1.tail, st.2)
      | .save => (st.1, some st.1)
      | .restore => (st.2.getD st.1, none)
      | .forget => (st.1, none)
      | .clear => ([], none)) ([], none)

/-- The index invariant of the reachable states. -/
def Inv (s : simple_restorable_stack T) : Prop :=
  s._pos ≤ s._size ∧ s._buffer.length = s._size ∧ s._size < InvalidIndex ∧
    (s._save ≠ InvalidIndex →
      s._jump ≤ s._save ∧ s._save ≤ s._size ∧ (s._save ≤ s._pos ∨ s._pos < s._jump))

/-- Calls that end a snapshot: `restore`, `forget` and `clear`. -/
def Op.ends : Op T → Bool
  | .restore => true
  | .forget => true
  | .clear => true
  | _ => false

/-- A stack of capacity 2 after `push 1`, `push 2`, `save`, `pop`: the cursor is below the
snapshot index and no slot is free above it. -/
def exBelowSnapshot : simple_restorable_stack Nat :=
  { _buffer := [1, 2], _size := 2, _null := 0, _pos := 1, _save := 2, _jump := 2 }

/-- The state in which the failing `push 3` leaves `exBelowSnapshot`. -/
def exBelowSnapshotFailed : simple_restorable_stack Nat :=
  { _buffer := [1, 2], _size := 2, _null := 0, _pos := 2, _save := 2, _jump := 1 }

/-- Whether a snapshot is outstanding after the calls `ops` on a new stack: the last of
the calls `save`, `restore`, `forget` and `clear` among them is a `save`. -/
def outstanding : List (Op T) → Bool
  | ops => ops.foldl (fun b op =>
      match op with
      | .save => true
      | .restore => false
      | .forget => false
      | .clear => false
      | _ => b) false

end simple_restorable_stack

/-! ## The payload of `stack.cpp` -/

/-- Modelled from the spec: `value.h` is not among the sources.  The tag of a payload
value: the distinguished "none" state, the two frame kinds a frame record can carry, and
any other tag. -/
inductive data_type
  | none
  | tunnel_frame
  | function_frame
  | other (tag : Nat)
  deriving DecidableEq

/-- Modelled from the spec: the `frame kind` enumeration `{tunnel, function}` of `stack.h`,
which is not among the sources. -/
inductive frame_type
  | tunnel
  | function
  deriving DecidableEq

/-- Modelled from the spec: `value.h` is not among the sources.  A payload value is a tag
and the data it carries; for a frame record the data is the return offset. -/
structure value where
  tag : data_type
  payload : Nat
  deriving DecidableEq

namespace value

/-- Modelled from the spec: the constructor `value(return_to, data_type)` of the absent
`value.h`, building a frame record. -/
def frame (return_to : Nat) (tag : data_type) : value := { tag := tag, payload := return_to }

/-- Modelled from the spec: `value::data_type()` of the absent `value.h`. -/
def data_type (v : value) : ink.data_type := v.tag

/-- Modelled from the spec: `value::as_divert()` of the absent `value.h`, the return offset
of a frame record. -/
def as_divert (v : value) : Nat := v.payload

/-- Modelled from the spec: `value::is_none()` of the absent `value.h`, the test for the
distinguished "none" state. -/
def is_none (v : value) : Bool := decide (v.tag = ink.data_type.none)

/-- Modelled from the spec: the value `value(x)` built from `data x; x.set_none();` in
`basic_eval_stack::forget`, with the absent `value.h`. -/
def none_value : value := { tag := ink.data_type.none, payload := 0 }

end value

/-- Modelled from the spec: `hash_t` is declared in the absent `system.h`; the spec calls it
a fixed-width hash, taken here as 32 bits.  This is `~0` stored into a `hash_t`. -/
def hash_all_ones : Nat := 2 ^ 32 - 1

/-- The struct `entry` of `basic_stack`: a name hash and a value. -/
structure entry where
  name : Nat
  data : value
  deriving DecidableEq

/-! ## `basic_stack`

The constant `InvalidHash` is declared in `system.h`, which is not among the sources; every
definition that uses it takes it as its first argument. -/

/-- The fields of `basic_stack`. -/
structure basic_stack where
  _stack : List entry
  _size : Nat
  _pos : Nat
  _save : Nat
  _jump : Nat
  deriving DecidableEq

namespace basic_stack

/-- The constructor `basic_stack(entry* data, size_t size)`. -/
def create (data : List entry) (size : Nat) : basic_stack :=
  { _stack := data, _size := size, _pos := 0, _save := InvalidIndex, _jump := InvalidIndex }

/-- The method `add(hash_t name, const value& val)`. -/
def add (s : basic_stack) (name : Nat) (val : value) : Except Fault basic_stack :=
  -- Don't destroy saved data
  let s1 : basic_stack :=
    if s._pos < s._save ∧ s._save ≠ InvalidIndex then
      { s with _jump := s._pos, _pos := s._save }
    else s
  if ¬ s1._pos < s1._size then .error .Overflow
  else if s1._pos < s1._stack.length then
    .ok { s1 with _stack := s1._stack.set s1._pos { name := name, data := val },
                  _pos := winc s1._pos }
  else .error .OutOfBounds

/-- The `do ... while (i > 0)` loop of `get`, entered with the value of `i` before `i--`.
The result is the index of the entry found, if any.  Every turn reads one slot, so a loop
that has taken more turns than there are slots is at a position it has been at before and
never ends: that is `Fault.OutOfFuel`. -/
def get_loop (InvalidHash : Nat) (s : basic_stack) (name : Nat) :
    Nat → Nat → Except Fault (Option Nat)
  | 0, _ => .error .OutOfFuel
  | fuel + 1, i =>
    let i1 := wdec i
    match s._stack[i1]? with
    | none => .error .OutOfBounds
    | some e =>
      if e.name = name then .ok (some i1)
      -- We hit the top of this stack frame. Not found!
      else if e.name = InvalidHash then .ok none
      else
        -- Jump over saved data
        let i2 := if i1 = s._save then s._jump else i1
        if i2 > 0 then get_loop InvalidHash s name fuel i2 else .ok none

/-- The method `get(hash_t name) const`.  The pointer returned is `none` for `nullptr` and
`some i` for `&_stack[i].data`. -/
def get (InvalidHash : Nat) (s : basic_stack) (name : Nat) : Except Fault (Option Nat) :=
  if s._pos = 0 then .ok none
  else get_loop InvalidHash s name (s._stack.length + 1) s._pos

/-- The value a caller of `get` reads through the pointer returned. -/
def get_value (InvalidHash : Nat) (s : basic_stack) (name : Nat) :
    Except Fault (Option value) :=
  match s.get InvalidHash name with
  | .error e => .error e
  | .ok none => .ok none
  | .ok (some i) =>
    match s._stack[i]? with
    | some e => .ok (some e.data)
    | none => .error .OutOfBounds

/-- The method `set(hash_t name, const value& val)`. -/
def set (InvalidHash : Nat) (s : basic_stack) (name : Nat) (val : value) :
    Except Fault basic_stack :=
  -- If we have a save point, always add no matter what
  if s._save ≠ InvalidIndex then s.add name val
  else
    -- Either set an existing variable or add it to the stack
    match s.get InvalidHash name with
    | .error e => .error e
    | .ok none => s.add name val
    | .ok (some i) =>
      match s._stack[i]? with
      | some e => .ok { s with _stack := s._stack.set i { e with data := val } }
      | none => .error .OutOfBounds

/-- The method `push_frame(offset_t return_to, frame_type type)`. -/
def push_frame (InvalidHash : Nat) (s : basic_stack) (return_to : Nat) (type : frame_type) :
    Except Fault basic_stack :=
  s.add InvalidHash
    (value.frame return_to
      (if type = frame_type.tunnel then data_type.tunnel_frame else data_type.function_frame))

/-- The loop `while (_stack[p].name != InvalidHash && p > 0) { if (p == _save) p = _jump;
p--; }` shared by `pop_frame` and `has_frame`, entered at `p`; the result is the position
at which it stops.  `Fault.OutOfFuel` is as for `get_loop`. -/
def frame_loop (InvalidHash : Nat) (s : basic_stack) : Nat → Nat → Except Fault Nat
  | 0, _ => .error .OutOfFuel
  | fuel + 1, p =>
    match s._stack[p]? with
    | none => .error .OutOfBounds
    | some e =>
      if e.name ≠ InvalidHash ∧ p > 0 then
        -- Jump over saved data
        frame_loop InvalidHash s fuel (wdec (if p = s._save then s._jump else p))
      else .ok p

/-- The method `pop_frame(frame_type* type)`: the offset returned, the frame kind stored
through `type`, and the state after. -/
def pop_frame (InvalidHash : Nat) (s : basic_stack) :
    Except Fault (Nat × frame_type × basic_stack) :=
  if ¬ s._pos > 0 then .error .Underflow
  else
    -- Advance up the callstack until we find the frame record
    match frame_loop InvalidHash s (s._stack.length + 1) (wdec s._pos) with
    | .error e => .error e
    | .ok p =>
      match s._stack[p]? with
      | none => .error .OutOfBounds
      | some e =>
        if ¬ e.name = InvalidHash then .error .InvalidState
        else
          .ok (e.data.as_divert,
            if e.data.data_type = data_type.tunnel_frame then frame_type.tunnel
            else frame_type.function,
            { s with _pos := p })

/-- The method `has_frame() const`. -/
def has_frame (InvalidHash : Nat) (s : basic_stack) : Except Fault Bool :=
  -- Empty case
  if s._pos = 0 then .ok false
  else
    match frame_loop InvalidHash s (s._stack.length + 1) (wdec s._pos) with
    | .error e => .error e
    | .ok p =>
      match s._stack[p]? with
      | none => .error .OutOfBounds
      | some e => .ok (decide (e.name = InvalidHash))

/-- The method `clear()`. -/
def clear (s : basic_stack) : basic_stack :=
  { s with _save := InvalidIndex, _jump := InvalidIndex, _pos := 0 }

/-- The method `save()`. -/
def save (s : basic_stack) : Except Fault basic_stack :=
  if ¬ s._save = InvalidIndex then .error .InvalidState
  else .ok { s with _save := s._pos, _jump := s._pos }

/-- The method `restore()`. -/
def restore (s : basic_stack) : Except Fault basic_stack :=
  if ¬ s._save ≠ InvalidIndex then .error .InvalidState
  else .ok { s with _pos := s._save, _save := InvalidIndex, _jump := InvalidIndex }

/-- The loop `for (i = start; i < start + count; i++) _stack[i].name = ~0`. -/
def unname : List entry → Nat → Nat → List entry
  | stack, _, 0 => stack
  | stack, i, count + 1 =>
    match stack[i]? with
    | some e => unname (stack.set i { e with name := hash_all_ones }) (i + 1) count
    | none => unname stack (i + 1) count

/-- The method `forget()`. -/
def forget (s : basic_stack) : Except Fault basic_stack :=
  if ¬ s._save ≠ InvalidIndex then .error .InvalidState
  -- If we have moven to a point earlier than the save point but we have a jump point
  else if s._pos < s._save ∧ s._pos > s._jump then
    if s._stack.length < s._save then .error .OutOfBounds
    else .ok { s with _stack := unname s._stack s._jump (s._save - s._jump),
                      _save := InvalidIndex }
  -- Just reset save position
  else .ok { s with _save := InvalidIndex }

/-- State changes of a `basic_stack`. -/
inductive Op
  | set (name : Nat) (val : value)
  | push_frame (return_to : Nat) (type : frame_type)
  | pop_frame
  | save
  | restore
  | forget
  | clear
  deriving DecidableEq

/-- One call: the state after it, if the call does not fail. -/
def step (InvalidHash : Nat) (s : basic_stack) : Op → Except Fault basic_stack
  | .set name val => s.set InvalidHash name val
  | .push_frame r k => s.push_frame InvalidHash r k
  | .pop_frame => (s.pop_frame InvalidHash).map fun r => r.2.2
  | .save => s.save
  | .restore => s.restore
  | .forget => s.forget
  | .clear => .ok s.clear

/-- A sequence of calls, none of which fails. -/
def run (InvalidHash : Nat) (s : basic_stack) : List Op → Except Fault basic_stack
  | [] => .ok s
  | op :: ops =>
    match s.step InvalidHash op with
    | .ok s1 => run InvalidHash s1 ops
    | .error e => .error e

/-- Calls that end a snapshot: `restore`, `forget` and `clear`. -/
def Op.ends : Op → Bool
  | .restore => true
  | .forget => true
  | .clear => true
  | _ => false

/-- Whether a snapshot is outstanding after the calls `ops` on a new stack: the last of
the calls `save`, `restore`, `forget` and `clear` among them is a `save`. -/
def outstanding : List Op → Bool
  | ops => ops.foldl (fun b op =>
      match op with
      | .save => true
      | .restore => false
      | .forget => false
      | .clear => false
      | _ => b) false

/-- The logical stack, bottom first, as the specification words it: the entries
`[0, _jump)` followed by `[_save, _pos)` when a snapshot is outstanding and
`_pos >= _save`, and the entries `[0, _pos)` otherwise. -/
def logical (s : basic_stack) : List entry :=
  if s._save ≠ InvalidIndex ∧ s._pos ≥ s._save then
    s._stack.take s._jump ++ (s._stack.drop s._save).take (s._pos - s._save)
  else s._stack.take s._pos

/-- Lookup as the specification words it, in a list of entries given top first: the value
of the topmost entry named `name` above the topmost boundary entry, if there is one. -/
def lookup (InvalidHash : Nat) (name : Nat) : List entry → Option value
  | [] => none
  | e :: es =>
    if e.name = InvalidHash then none
    else if e.name = name then some e.data
    else lookup InvalidHash name es

/-- What a slot of a new call stack holds in the scenarios. -/
def exSlot : entry := { name := 7, data := value.none_value }

/-- An ordinary value: the number `n`. -/
def exNumber (n : Nat) : value := { tag := data_type.other 0, payload := n }

/-- The calls of the scenario with a frame removed under a snapshot; with boundary name
`h` the variable is named `h + 1`. -/
def exCalls (h : Nat) : List Op :=
  [.push_frame 10 frame_type.tunnel, .set (h + 1) (exNumber 1), .save, .pop_frame,
    .push_frame 20 frame_type.function, .pop_frame]

/-- The state of a call stack of capacity 4, whose slots held `e0` at first, after the calls
`exCalls h`. -/
def exFrameGone (h : Nat) (e0 : entry) : basic_stack :=
  { _stack := [{ name := h, data := value.frame 10 data_type.tunnel_frame },
      { name := h + 1, data := exNumber 1 },
      { name := h, data := value.frame 20 data_type.function_frame }, e0],
    _size := 4, _pos := 2, _save := 2, _jump := 0 }

/-- A call stack of capacity 2 after `save`, `restore`. -/
def exRestored : basic_stack :=
  { _stack := [exSlot, exSlot],
    _size := 2, _pos := 0, _save := InvalidIndex, _jump := InvalidIndex }

/-- The states a call stack built over `data` can be in after calls none of which
failed. -/
def Reachable (InvalidHash : Nat) (s : basic_stack) : Prop :=
  ∃ (data : List entry) (ops : List Op),
    data.length < InvalidIndex ∧ (create data data.length).run InvalidHash ops = .ok s

/-- The indices of the slots that the loop of `get` reads, in the order it reads them: the
loop of `get_loop`, recording `i` after each `i--`. -/
def get_visited (InvalidHash : Nat) (s : basic_stack) (name : Nat) : Nat → Nat → List Nat
  | 0, _ => []
  | fuel + 1, i =>
    let i1 := wdec i
    match s._stack[i1]? with
    | none => [i1]
    | some e =>
      if e.name = name then [i1]
      else if e.name = InvalidHash then [i1]
      else
        let i2 := if i1 = s._save then s._jump else i1
        if i2 > 0 then i1 :: get_visited InvalidHash s name fuel i2 else [i1]

/-- The topmost boundary entry of the logical stack, as the specification words it. -/
def top_frame (InvalidHash : Nat) (s : basic_stack) : Option entry :=
  s.logical.reverse.find? fun e => decide (e.name = InvalidHash)

/-- Whether the logical stack contains a boundary entry, as the specification words it. -/
def logical_has_frame (InvalidHash : Nat) (s : basic_stack) : Bool :=
  s.logical.any fun e => decide (e.name = InvalidHash)

/-- A call stack of capacity 5, boundary name 0, after `push_frame(5, tunnel)`,
`push_frame(10, function)`, `set(1, 1)`, `save`, `pop_frame`, `push_frame(20, tunnel)`,
`pop_frame`: the frames 10 and 20 have been removed, the frame 5 is left. -/
def exOuterFrame : basic_stack :=
  { _stack := [{ name := 0, data := value.frame 5 data_type.tunnel_frame },
      { name := 0, data := value.frame 10 data_type.function_frame },
      { name := 1, data := exNumber 1 },
      { name := 0, data := value.frame 20 data_type.tunnel_frame }, exSlot],
    _size := 5, _pos := 3, _save := 3, _jump := 1 }

/-- The stack `exOuterFrame` with the cursor at 1, where `pop_frame` leaves it. -/
def exOuterFrameLeft : basic_stack :=
  { _stack := [{ name := 0, data := value.frame 5 data_type.tunnel_frame },
      { name := 0, data := value.frame 10 data_type.function_frame },
      { name := 1, data := exNumber 1 },
      { name := 0, data := value.frame 20 data_type.tunnel_frame }, exSlot],
    _size := 5, _pos := 1, _save := 3, _jump := 1 }

/-- A call stack of capacity 4, boundary name 0, after `push_frame(10, tunnel)`,
`set(1, 1)`. -/
def exOneFrame : basic_stack :=
  { _stack := [{ name := 0, data := value.frame 10 data_type.tunnel_frame },
      { name := 1, data := exNumber 1 }, exSlot, exSlot],
    _size := 4, _pos := 2, _save := InvalidIndex, _jump := InvalidIndex }

/-- The stack `exOneFrame` after `push_frame(20, function)`. -/
def exTwoFrames : basic_stack :=
  { _stack := [{ name := 0, data := value.frame 10 data_type.tunnel_frame },
      { name := 1, data := exNumber 1 },
      { name := 0, data := value.frame 20 data_type.function_frame }, exSlot],
    _size := 4, _pos := 3, _save := InvalidIndex, _jump := InvalidIndex }

/-- The stack `exOneFrame` after `save`. -/
def exOneFrameSaved : basic_stack :=
  { _stack := [{ name := 0, data := value.frame 10 data_type.tunnel_frame },
      { name := 1, data := exNumber 1 }, exSlot, exSlot],
    _size := 4, _pos := 2, _save := 2, _jump := 2 }

/-- The stack `exOneFrameSaved` after `set(1, 2)`. -/
def exShadowed : basic_stack :=
  { _stack := [{ name := 0, data := value.frame 10 data_type.tunnel_frame },
      { name := 1, data := exNumber 1 }, { name := 1, data := exNumber 2 }, exSlot],
    _size := 4, _pos := 3, _save := 2, _jump := 2 }

/-- The bounds every reachable state keeps: the cursor and the snapshot index stay within
the capacity. -/
def Bounded (s : basic_stack) : Prop :=
  s._pos ≤ s._size ∧ s._stack.length = s._size ∧ s._size < InvalidIndex ∧
    (s._save ≠ InvalidIndex → s._save ≤ s._size)

end basic_stack

/-! ## `basic_eval_stack` -/

/-- The fields of `basic_eval_stack`. -/
structure basic_eval_stack where
  _stack : List value
  _size : Nat
  _pos : Nat
  _save : Nat
  _jump : Nat
  deriving DecidableEq

namespace basic_eval_stack

/-- The constructor `basic_eval_stack(value* data, size_t size)`. -/
def create (data : List value) (size : Nat) : basic_eval_stack :=
  { _stack := data, _size := size, _pos := 0, _save := InvalidIndex, _jump := InvalidIndex }

/-- The method `push(const value& val)`. -/
def push (s : basic_eval_stack) (val : value) : Except Fault basic_eval_stack :=
  -- Don't destroy saved data. Jump over it
  let s1 : basic_eval_stack :=
    if s._pos < s._save ∧ s._save ≠ InvalidIndex then
      { s with _jump := s._pos, _pos := s._save }
    else s
  if ¬ s1._pos < s1._size then .error .Overflow
  else if s1._pos < s1._stack.length then
    .ok { s1 with _stack := s1._stack.set s1._pos val, _pos := winc s1._pos }
  else .error .OutOfBounds

/-- The loop `while (_stack[_pos].is_none()) _pos--;` of `pop`, entered at the position
given; the result is the position at which it stops.  When slot 0 holds a none value,
`_pos--` wraps to `~0` and the next slot read is outside the buffer. -/
def pop_skip (s : basic_eval_stack) : Nat → Except Fault Nat
  | 0 =>
    match s._stack[0]? with
    | none => .error .OutOfBounds
    | some v => if v.is_none then .error .OutOfBounds else .ok 0
  | p + 1 =>
    match s._stack[p + 1]? with
    | none => .error .OutOfBounds
    | some v => if v.is_none then pop_skip s p else .ok (p + 1)

/-- The method `pop()`: the value returned and the state after. -/
def pop (s : basic_eval_stack) : Except Fault (value × basic_eval_stack) :=
  if ¬ s._pos > 0 then .error .Underflow
  else
    -- Jump over save data, move over none data
    match pop_skip s (if s._pos = s._save then s._jump else s._pos) with
    | .error e => .error e
    | .ok p =>
      -- Decrement and return
      match s._stack[wdec p]? with
      | some v => .ok (v, { s with _pos := wdec p })
      | none => .error .OutOfBounds

/-- The method `top() const`. -/
def top (s : basic_eval_stack) : Except Fault value :=
  if ¬ s._pos > 0 then .error .Underflow
  else
    match s._stack[wdec s._pos]? with
    | some v => .ok v
    | none => .error .OutOfBounds

/-- The method `is_empty() const`. -/
def is_empty (s : basic_eval_stack) : Bool := decide (s._pos = 0)

/-- The method `clear()`. -/
def clear (s : basic_eval_stack) : basic_eval_stack :=
  { s with _pos := 0, _jump := InvalidIndex, _save := InvalidIndex }

/-- The method `save()`. -/
def save (s : basic_eval_stack) : Except Fault basic_eval_stack :=
  if ¬ s._save = InvalidIndex then .error .InvalidState
  else .ok { s with _save := s._pos, _jump := s._pos }

/-- The method `restore()`. -/
def restore (s : basic_eval_stack) : Except Fault basic_eval_stack :=
  if ¬ s._save ≠ InvalidIndex then .error .InvalidState
  else .ok { s with _pos := s._save, _save := InvalidIndex, _jump := InvalidIndex }

/-- The loop `for (i = start; i < start + count; i++) _stack[i] = none`. -/
def nullify : List value → Nat → Nat → List value
  | stack, _, 0 => stack
  | stack, i, count + 1 => nullify (stack.set i value.none_value) (i + 1) count

/-- The method `forget()`. -/
def forget (s : basic_eval_stack) : Except Fault basic_eval_stack :=
  if ¬ s._save ≠ InvalidIndex then .error .InvalidState
  -- If we have moven to a point earlier than the save point but we have a jump point
  else if s._pos < s._save ∧ s._pos > s._jump then
    if s._stack.length < s._save then .error .OutOfBounds
    else .ok { s with _stack := nullify s._stack s._jump (s._save - s._jump),
                      _save := InvalidIndex }
  -- Just reset save position
  else .ok { s with _save := InvalidIndex }

/-- State changes of a `basic_eval_stack`. -/
inductive Op
  | push (val : value)
  | pop
  | save
  | restore
  | forget
  | clear
  deriving DecidableEq

/-- One call: the state after it, if the call does not fail. -/
def step (s : basic_eval_stack) : Op → Except Fault basic_eval_stack
  | .push v => s.push v
  | .pop => (s.pop).map Prod.snd
  | .save => s.save
  | .restore => s.restore
  | .forget => s.forget
  | .clear => .ok s.clear

/-- A sequence of calls, none of which fails. -/
def run (s : basic_eval_stack) : List Op → Except Fault basic_eval_stack
  | [] => .ok s
  | op :: ops =>
    match s.step op with
    | .ok s1 => run s1 ops
    | .error e => .error e

/-- Calls that end a snapshot: `restore`, `forget` and `clear`. -/
def Op.ends : Op → Bool
  | .restore => true
  | .forget => true
  | .clear => true
  | _ => false

/-- Whether a snapshot is outstanding after the calls `ops` on a new stack: the last of
the calls `save`, `restore`, `forget` and `clear` among them is a `save`. -/
def outstanding : List Op → Bool
  | ops => ops.foldl (fun b op =>
      match op with
      | .save => true
      | .restore => false
      | .forget => false
      | .clear => false
      | _ => b) false

/-- An evaluation stack of capacity 2, whose slots held the number 5 at first, after
`push` of the none value. -/
def exNonePushed : basic_eval_stack :=
  { _stack := [value.none_value, { tag := data_type.other 0, payload := 5 }],
    _size := 2, _pos := 1, _save := InvalidIndex, _jump := InvalidIndex }

/-- An evaluation stack of capacity 2 after `push` of the number 5, `save`, `forget`. -/
def exCommitted : basic_eval_stack :=
  { _stack := [{ tag := data_type.other 0, payload := 5 },
      { tag := data_type.other 0, payload := 0 }],
    _size := 2, _pos := 1, _save := InvalidIndex, _jump := 1 }

/-- The logical stack, bottom first, as the specification words it: the slots
`[0, _jump)` followed by `[_save, _pos)` when a snapshot is outstanding and
`_pos >= _save`, and the slots `[0, _pos)` otherwise. -/
def logical (s : basic_eval_stack) : List value :=
  if s._save ≠ InvalidIndex ∧ s._pos ≥ s._save then
    s._stack.take s._jump ++ (s._stack.drop s._save).take (s._pos - s._save)
  else s._stack.take s._pos

/-- The topmost value of the logical stack that is not none, as the specification words
it. -/
def logical_top (s : basic_eval_stack) : Option value :=
  s.logical.reverse.find? fun v => !v.is_none

/-- An evaluation stack of capacity 3, whose slots held the none value at first, after
`push` of the numbers 5 and 7. -/
def exTwoValues : basic_eval_stack :=
  { _stack := [basic_stack.exNumber 5, basic_stack.exNumber 7, value.none_value],
    _size := 3, _pos := 2, _save := InvalidIndex, _jump := InvalidIndex }

/-- The stack `exTwoValues` with the cursor at 0, where `pop` leaves it. -/
def exTwoValuesPopped : basic_eval_stack :=
  { _stack := [basic_stack.exNumber 5, basic_stack.exNumber 7, value.none_value],
    _size := 3, _pos := 0, _save := InvalidIndex, _jump := InvalidIndex }

/-- An evaluation stack of capacity 5, whose slots held the number 0 at first, after
`push 5`, `push 7`, `save`, `pop`, `push 8`, `pop`: the cursor is back at the snapshot
index and slot 1 is bypassed. -/
def exRelocated : basic_eval_stack :=
  { _stack := [basic_stack.exNumber 5, basic_stack.exNumber 7, basic_stack.exNumber 8,
      basic_stack.exNumber 0, basic_stack.exNumber 0],
    _size := 5, _pos := 2, _save := 2, _jump := 1 }

/-- An evaluation stack of capacity 6, whose slots held the none value at first, after
`push 1`, `push 2`, `push 3`, `save`, `pop`, `push 4`, `pop`: the cursor is inside the
bypassed region. -/
def exInside : basic_eval_stack :=
  { _stack := [basic_stack.exNumber 1, basic_stack.exNumber 2, basic_stack.exNumber 3,
      basic_stack.exNumber 4, value.none_value, value.none_value],
    _size := 6, _pos := 2, _save := 3, _jump := 1 }

/-- The stack `exInside` after `forget`. -/
def exInsideForgotten : basic_eval_stack :=
  { _stack := [basic_stack.exNumber 1, value.none_value, value.none_value,
      basic_stack.exNumber 4, value.none_value, value.none_value],
    _size := 6, _pos := 2, _save := InvalidIndex, _jump := 1 }

/-- The bounds every reachable state keeps: the cursor and the snapshot index stay within
the capacity. -/
def Bounded (s : basic_eval_stack) : Prop :=
  s._pos ≤ s._size ∧ s._stack.length = s._size ∧ s._size < InvalidIndex ∧
    (s._save ≠ InvalidIndex → s._save ≤ s._size)

end basic_eval_stack

/-! ## The snapshot protocol, as the specification words it -/

/-- The contract of `save`, `restore` and `forget` for a stack whose states are reached by
sequences of calls (`reach ops s`: the calls `ops`, none failing, lead from a new stack to
`s`) and for which `out ops` tells whether a snapshot is outstanding after `ops`:
`save` fails, with InvalidState, exactly when a snapshot is outstanding and succeeds
otherwise; `restore` and `forget` fail, with InvalidState, exactly when none is
outstanding and succeed otherwise. -/
def SnapshotContract {S O : Type} (reach : List O → S → Prop) (out : List O → Bool)
    (save restore forget : S → Except Fault S) : Prop :=
  ∀ (ops : List O) (s : S), reach ops s →
    (save s = .error Fault.InvalidState ↔ out ops = true) ∧
    ((∃ s1, save s = .ok s1) ↔ out ops = false) ∧
    (restore s = .error Fault.InvalidState ↔ out ops = false) ∧
    ((∃ s1, restore s = .ok s1) ↔ out ops = true) ∧
    (forget s = .error Fault.InvalidState ↔ out ops = false) ∧
    ((∃ s1, forget s = .ok s1) ↔ out ops = true)

/-- What follows for a second `save`, with `ends` telling the calls that end a snapshot
and `saveOp` the call `save`: right after a call that ends a snapshot `save` succeeds, and
after a `save` followed only by calls that do not end a snapshot `save` fails with
InvalidState. -/
def SnapshotSequel {S O : Type} (reach : List O → S → Prop) (saveOp : O) (ends : O → Bool)
    (save : S → Except Fault S) : Prop :=
  (∀ (ops : List O) (e : O) (s : S), ends e = true → reach (ops ++ [e]) s →
    ∃ s1, save s = .ok s1) ∧
  (∀ (ops mid : List O) (s : S), (∀ op ∈ mid, ends op = false) →
    reach (ops ++ saveOp :: mid) s → save s = .error Fault.InvalidState)

/-! ## Lemmas on `simple_restorable_stack<T>` -/

namespace simple_restorable_stack

variable {T : Type} [DecidableEq T]

theorem length_nullify (null : T) (count : Nat) :
    ∀ (buffer : List T) (i : Nat), (nullify null buffer i count).length = buffer.length := by
  induction count with
  | zero => intro buffer i; rfl
  | succ n ih => intro buffer i; simp [nullify, ih]

theorem Inv_create (buffer : List T) (null : T) (h : buffer.length < InvalidIndex) :
    Inv (create buffer buffer.length null) := by
  simp [Inv, create, h]

theorem Inv_push {s s1 : simple_restorable_stack T} {v : T} (hi : Inv s)
    (h : s.push v = .ok s1) : Inv s1 := by
  obtain ⟨h1, h2, h3, h4⟩ := hi
  unfold push at h
  simp only [InvalidIndex, winc, wordSize] at *
  split_ifs at h <;> simp only [Except.ok.injEq, reduceCtorEq] at h <;> subst h <;>
    simp only [Inv, InvalidIndex, List.length_set] at * <;> omega

theorem pop_ok_iff {s s1 : simple_restorable_stack T} {x : T} :
    s.pop = .ok (x, s1) ↔
      0 < s._pos ∧ s._buffer[wdec (if s._pos = s._save then s._jump else s._pos)]? = some x ∧
        s1 = { s with _pos := wdec (if s._pos = s._save then s._jump else s._pos) } := by
  unfold pop
  by_cases hp : s._pos > 0
  · simp only [hp, not_true_eq_false, if_false, true_and]
    cases hb : s._buffer[wdec (if s._pos = s._save then s._jump else s._pos)]? with
    | none => simp
    | some y =>
      simp only [Except.ok.injEq, Prod.mk.injEq, Option.some.injEq]
      constructor
      · rintro ⟨rfl, rfl⟩; exact ⟨rfl, rfl⟩
      · rintro ⟨rfl, rfl⟩; exact ⟨rfl, rfl⟩
  · simp [hp]

theorem Inv_pop {s s1 : simple_restorable_stack T} {x : T} (hi : Inv s)
    (h : s.pop = .ok (x, s1)) : Inv s1 := by
  obtain ⟨h1, h2, h3, h4⟩ := hi
  obtain ⟨hp, hb, rfl⟩ := pop_ok_iff.mp h
  have hlt := (List.getElem?_eq_some_iff.mp hb).1
  simp only [Inv, InvalidIndex, wdec, wordSize] at *
  split_ifs at hlt ⊢ <;> omega

theorem Inv_save {s s1 : simple_restorable_stack T} (hi : Inv s)
    (h : s.save = .ok s1) : Inv s1 := by
  obtain ⟨h1, h2, h3, h4⟩ := hi
  unfold save at h
  split_ifs at h <;> simp only [Except.ok.injEq, reduceCtorEq] at h
  subst h
  simp only [Inv, InvalidIndex] at *
  omega

theorem Inv_restore {s s1 : simple_restorable_stack T} (hi : Inv s)
    (h : s.restore = .ok s1) : Inv s1 := by
  obtain ⟨h1, h2, h3, h4⟩ := hi
  unfold restore at h
  split_ifs at h <;> simp only [Except.ok.injEq, reduceCtorEq] at h
  subst h
  simp only [Inv, InvalidIndex] at *
  omega

theorem Inv_forget {s s1 : simple_restorable_stack T} (hi : Inv s)
    (h : s.forget = .ok s1) : Inv s1 := by
  obtain ⟨h1, h2, h3, h4⟩ := hi
  unfold forget at h
  split_ifs at h <;> simp only [Except.ok.injEq, reduceCtorEq] at h
  subst h
  simp only [Inv, InvalidIndex, length_nullify] at *
  omega

theorem Inv_clear {s : simple_restorable_stack T} (hi : Inv s) : Inv s.clear := by
  obtain ⟨h1, h2, h3, h4⟩ := hi
  simp only [Inv, InvalidIndex, clear] at *
  omega

theorem Inv_step {s s1 : simple_restorable_stack T} {op : Op T} (hi : Inv s)
    (h : s.step op = .ok s1) : Inv s1 := by
  cases op with
  | push v => exact Inv_push hi h
  | pop =>
    simp only [step] at h
    cases hp : s.pop with
    | error e => rw [hp] at h; simp [Except.map] at h
    | ok r =>
      rw [hp] at h
      simp only [Except.map, Except.ok.injEq] at h
      obtain ⟨x, s2⟩ := r
      subst h
      exact Inv_pop hi hp
  | save => exact Inv_save hi h
  | restore => exact Inv_restore hi h
  | forget => exact Inv_forget hi h
  | clear =>
    simp only [step, Except.ok.injEq] at h
    subst h
    exact Inv_clear hi

theorem Inv_run (ops : List (Op T)) :
    ∀ {s s1 : simple_restorable_stack T}, Inv s → s.run ops = .ok s1 → Inv s1 := by
  induction ops with
  | nil =>
    intro s s1 hi h
    simp only [run, Except.ok.injEq] at h
    subst h
    exact hi
  | cons op ops ih =>
    intro s s1 hi h
    simp only [run] at h
    cases hs : s.step op with
    | error e => rw [hs] at h; simp at h
    | ok s2 =>
      rw [hs] at h
      exact ih (Inv_step hi hs) h

theorem Reachable.inv {s : simple_restorable_stack T} (h : Reachable s) : Inv s := by
  obtain ⟨buffer, null, ops, hlen, hrun⟩ := h
  exact Inv_run ops (Inv_create buffer null hlen) hrun

theorem push_ok_iff {s s1 : simple_restorable_stack T} {v : T} :
    s.push v = .ok s1 ↔
      v ≠ s._null ∧
        (if s._save ≠ InvalidIndex ∧ s._pos < s._save then s._save else s._pos) < s._size ∧
        (if s._save ≠ InvalidIndex ∧ s._pos < s._save then s._save else s._pos)
          < s._buffer.length ∧
        s1 = { s with
          _buffer := s._buffer.set
            (if s._save ≠ InvalidIndex ∧ s._pos < s._save then s._save else s._pos) v,
          _pos := winc (if s._save ≠ InvalidIndex ∧ s._pos < s._save then s._save else s._pos),
          _jump := if s._save ≠ InvalidIndex ∧ s._pos < s._save then s._pos else s._jump } := by
  unfold push
  by_cases hv : v = s._null
  · simp [hv]
  · by_cases hj : s._save ≠ InvalidIndex ∧ s._pos < s._save
    · simp only [hv, hj, if_false, if_true, and_self, ne_eq, not_false_eq_true, true_and]
      by_cases h1 : s._save < s._size
      · by_cases h2 : s._save < s._buffer.length
        · simp only [h1, h2, not_true_eq_false, if_false, if_true, true_and, Except.ok.injEq]
          exact eq_comm
        · simp [h1, h2]
      · simp [h1]
    · simp only [hv, hj, if_false, ne_eq, not_false_eq_true, true_and]
      by_cases h1 : s._pos < s._size
      · by_cases h2 : s._pos < s._buffer.length
        · simp only [h1, h2, not_true_eq_false, if_false, if_true, true_and, Except.ok.injEq]
          exact eq_comm
        · simp [h1, h2]
      · simp [h1]

theorem Kept_push {s0 s s1 : simple_restorable_stack T} {v : T} (h0 : s0._pos ≠ InvalidIndex)
    (hk : Kept s0 s) (h : s.push v = .ok s1) : Kept s0 s1 := by
  obtain ⟨k1, k2, k3, k4⟩ := hk
  obtain ⟨-, -, -, rfl⟩ := push_ok_iff.mp h
  refine ⟨k1, k2, k3, fun i hi => ?_⟩
  simp only []
  rw [List.getElem?_set_ne (by split_ifs <;> omega)]
  exact k4 i hi

theorem Kept_pop {s0 s s1 : simple_restorable_stack T} {x : T}
    (hk : Kept s0 s) (h : s.pop = .ok (x, s1)) : Kept s0 s1 := by
  obtain ⟨k1, k2, k3, k4⟩ := hk
  obtain ⟨-, -, rfl⟩ := pop_ok_iff.mp h
  exact ⟨k1, k2, k3, k4⟩

theorem Kept_run (s0 : simple_restorable_stack T) (h0 : s0._pos ≠ InvalidIndex)
    (ops : List (Op T)) (hops : ∀ op ∈ ops, op.isPushPop = true) :
    ∀ {s s1 : simple_restorable_stack T}, Kept s0 s → s.run ops = .ok s1 → Kept s0 s1 := by
  induction ops with
  | nil =>
    intro s s1 hk h
    simp only [run, Except.ok.injEq] at h
    subst h
    exact hk
  | cons op ops ih =>
    intro s s1 hk h
    simp only [run] at h
    have hrest : ∀ o ∈ ops, o.isPushPop = true := fun o ho => hops o (List.mem_cons_of_mem _ ho)
    have hop := hops op (List.mem_cons_self _ _)
    cases hs : s.step op with
    | error e => rw [hs] at h; simp at h
    | ok s2 =>
      rw [hs] at h
      refine ih hrest ?_ h
      cases op with
      | push v => exact Kept_push h0 hk hs
      | pop =>
        simp only [step] at hs
        cases hp : s.pop with
        | error e => rw [hp] at hs; simp [Except.map] at hs
        | ok r =>
          rw [hp] at hs
          simp only [Except.map, Except.ok.injEq] at hs
          obtain ⟨x, s3⟩ := r
          subst hs
          exact Kept_pop hk hp
      | save => simp [Op.isPushPop] at hop
      | restore => simp [Op.isPushPop] at hop
      | forget => simp [Op.isPushPop] at hop
      | clear => simp [Op.isPushPop] at hop

theorem save_eq_of_push {s s1 : simple_restorable_stack T} {v : T}
    (h : s.push v = .ok s1) : s1._save = s._save := by
  obtain ⟨-, -, -, h1⟩ := push_ok_iff.mp h
  rw [h1]

theorem save_eq_of_pop {s s1 : simple_restorable_stack T} {x : T}
    (h : s.pop = .ok (x, s1)) : s1._save = s._save := by
  obtain ⟨-, -, h1⟩ := pop_ok_iff.mp h
  rw [h1]

theorem save_tracks_outstanding (ops : List (Op T)) :
    ∀ (b : Bool) {s s1 : simple_restorable_stack T}, Inv s →
      (s._save ≠ InvalidIndex ↔ b = true) → s.run ops = .ok s1 →
      (s1._save ≠ InvalidIndex ↔
        ops.foldl (fun b op =>
          match op with
          | .save => true
          | .restore => false
          | .forget => false
          | .clear => false
          | _ => b) b = true) := by
  induction ops with
  | nil =>
    intro b s s1 _ hb h
    simp only [run, Except.ok.injEq] at h
    subst h
    simpa using hb
  | cons op ops ih =>
    intro b s s1 hi hb h
    simp only [run] at h
    cases hs : s.step op with
    | error e => rw [hs] at h; simp at h
    | ok s2 =>
      rw [hs] at h
      have hi2 := Inv_step hi hs
      simp only [List.foldl_cons]
      refine ih _ hi2 ?_ h
      obtain ⟨i1, i2, i3, -⟩ := hi
      cases op with
      | push v =>
        rw [save_eq_of_push hs]
        exact hb
      | pop =>
        simp only [step] at hs
        cases hp : s.pop with
        | error e => rw [hp] at hs; simp [Except.map] at hs
        | ok r =>
          rw [hp] at hs
          simp only [Except.map, Except.ok.injEq] at hs
          obtain ⟨x, s3⟩ := r
          subst hs
          rw [save_eq_of_pop hp]
          exact hb
      | save =>
        simp only [step, save] at hs
        split_ifs at hs
        simp only [Except.ok.injEq] at hs
        subst hs
        simp only [ne_eq, iff_true]
        omega
      | restore =>
        simp only [step, restore] at hs
        split_ifs at hs
        simp only [Except.ok.injEq] at hs
        subst hs
        simp
      | forget =>
        simp only [step, forget] at hs
        split_ifs at hs
        simp only [Except.ok.injEq] at hs
        subst hs
        simp
      | clear =>
        simp only [step, Except.ok.injEq] at hs
        subst hs
        simp [clear]

theorem snapshot_contract (buffer : List T) (null : T) (hlen : buffer.length < InvalidIndex)
    (ops : List (Op T)) (s : simple_restorable_stack T)
    (hrun : (create buffer buffer.length null).run ops = .ok s) :
    (s.save = .error Fault.InvalidState ↔ outstanding ops = true) ∧
    ((∃ s1, s.save = .ok s1) ↔ outstanding ops = false) ∧
    (s.restore = .error Fault.InvalidState ↔ outstanding ops = false) ∧
    ((∃ s1, s.restore = .ok s1) ↔ outstanding ops = true) ∧
    (s.forget = .error Fault.InvalidState ↔ outstanding ops = false) ∧
    ((∃ s1, s.forget = .ok s1) ↔ outstanding ops = true) := by
  have hi0 := Inv_create buffer null hlen
  have hk := save_tracks_outstanding ops false hi0 (by simp [create]) hrun
  obtain ⟨i1, i2, i3, i4⟩ := Inv_run ops hi0 hrun
  unfold outstanding
  by_cases hv : s._save = InvalidIndex
  · have ho : ¬ _ = true := fun h => (hk.mpr h) hv
    simp only [Bool.not_eq_true] at ho
    rw [ho]
    simp [save, restore, forget, hv]
  · have ho := hk.mp hv
    rw [ho]
    have hf : ¬ (s._jump < s._save ∧ s._buffer.length < s._save) := by
      have := i4 hv
      omega
    simp [save, restore, forget, hv, hf]

theorem iter_skip_congr {s s1 : simple_restorable_stack T} (hn : s1._null = s._null) :
    ∀ c : Nat, (∀ i, i < c → s1._buffer[i]? = s._buffer[i]?) →
      s1.iter_skip c = s.iter_skip c := by
  intro c
  induction c with
  | zero => intro _; rfl
  | succ n ih =>
    intro hb
    simp only [iter_skip]
    rw [hb n (Nat.lt_succ_self n), hn, ih (fun i hi => hb i (Nat.lt_succ_of_lt hi))]

theorem iter_skip_lt {s : simple_restorable_stack T} :
    ∀ (c : Nat) (k : Int), s.iter_skip c = .ok k → 0 ≤ k ∧ k < (c : Int) := by
  intro c
  induction c with
  | zero => intro k h; simp [iter_skip] at h
  | succ n ih =>
    intro k h
    simp only [iter_skip] at h
    split at h
    · simp at h
    · split_ifs at h
      · have := ih k h
        omega
      · simp only [Except.ok.injEq] at h
        omega

theorem iter_congr {s s1 : simple_restorable_stack T} (hp : s1._pos = s._pos)
    (hs1 : s1._save = InvalidIndex) (hs : s._save = InvalidIndex) (hn : s1._null = s._null)
    (hlt : s._pos < InvalidIndex) (hb : ∀ i, i < s._pos → s1._buffer[i]? = s._buffer[i]?)
    (c : Option Int) : s1.iter c = s.iter c := by
  unfold iter
  rw [hp, hs1, hs]
  by_cases h0 : s._pos = 0
  · simp [h0]
  · simp only [h0, if_false]
    cases c with
    | none => rfl
    | some k =>
      simp only []
      by_cases hk : k < 0 ∨ k > (s._pos : Int)
      · simp [hk]
      · have hne : ¬ k = (InvalidIndex : Int) := by
          simp only [InvalidIndex] at hlt ⊢
          omega
        simp only [hk, hne, if_false]
        rw [iter_skip_congr hn k.toNat (fun i hi => hb i (by omega))]

theorem iter_result_lt {s : simple_restorable_stack T} (hs : s._save = InvalidIndex)
    (hlt : s._pos < InvalidIndex) {c : Option Int} {k : Int}
    (h : s.iter c = .ok (true, some k)) : 0 ≤ k ∧ k < (s._pos : Int) := by
  unfold iter at h
  rw [hs] at h
  by_cases h0 : s._pos = 0
  · simp [h0] at h
  · simp only [h0, if_false] at h
    cases c with
    | none =>
      simp only [Except.ok.injEq, Prod.mk.injEq, Option.some.injEq, true_and] at h
      omega
    | some j =>
      simp only [] at h
      by_cases hk : j < 0 ∨ j > (s._pos : Int)
      · simp only [hk, if_true, Except.ok.injEq, Prod.mk.injEq, Option.some.injEq,
          true_and] at h
        omega
      · have hne : ¬ j = (InvalidIndex : Int) := by
          simp only [InvalidIndex] at hlt ⊢
          omega
        simp only [hk, hne, if_false] at h
        cases hsk : s.iter_skip j.toNat with
        | error e => rw [hsk] at h; simp at h
        | ok k2 =>
          rw [hsk] at h
          have hb := iter_skip_lt j.toNat k2 hsk
          simp only [] at h
          split_ifs at h with hneg
          · simp at h
          · simp only [Except.ok.injEq, Prod.mk.injEq, Option.some.injEq, true_and] at h
            omega

theorem iterate_congr {s s1 : simple_restorable_stack T} (hp : s1._pos = s._pos)
    (hs1 : s1._save = InvalidIndex) (hs : s._save = InvalidIndex) (hn : s1._null = s._null)
    (hlt : s._pos < InvalidIndex) (hb : ∀ i, i < s._pos → s1._buffer[i]? = s._buffer[i]?) :
    ∀ (fuel : Nat) (c : Option Int), s1.iterate fuel c = s.iterate fuel c := by
  intro fuel
  induction fuel with
  | zero => intro c; rfl
  | succ n ih =>
    intro c
    simp only [iterate]
    rw [iter_congr hp hs1 hs hn hlt hb c]
    cases hit : s.iter c with
    | error e => rfl
    | ok r =>
      obtain ⟨b, o⟩ := r
      cases b with
      | false => rfl
      | true =>
        cases o with
        | none => rfl
        | some k =>
          have hk := iter_result_lt hs hlt hit
          simp only []
          rw [hb k.toNat (by omega), ih (some k)]

theorem size_of_no_snapshot {s : simple_restorable_stack T} (hs : s._save = InvalidIndex)
    (hlt : s._pos < InvalidIndex) : s.size = s._pos := by
  unfold size
  rw [hs]
  simp only [ge_iff_le]
  rw [if_neg (by omega)]

theorem top_of_no_snapshot {s : simple_restorable_stack T} (hs : s._save = InvalidIndex)
    (hlt : s._pos < InvalidIndex) :
    s.top = if ¬ s._pos > 0 then .error .Underflow else
      match s._buffer[s._pos - 1]? with
      | some x => .ok x
      | none => .error .OutOfBounds := by
  unfold top
  rw [hs, if_neg (by omega)]
  have : wdec s._pos = s._pos - 1 ∨ ¬ s._pos > 0 := by
    simp only [wdec, wordSize, InvalidIndex] at *
    omega
  rcases this with h | h
  · rw [h]
  · simp [h]

theorem size_push {s s1 : simple_restorable_stack T} {v : T} (hi : Inv s)
    (h : s.push v = .ok s1) : s1.size = s.size + 1 := by
  obtain ⟨h1, h2, h3, h4⟩ := hi
  obtain ⟨-, a1, -, rfl⟩ := push_ok_iff.mp h
  unfold size
  simp only []
  by_cases hj : s._save ≠ InvalidIndex ∧ s._pos < s._save
  · have := h4 hj.1
    simp only [if_pos hj] at a1 ⊢
    simp only [winc, wsub, wordSize, InvalidIndex] at *
    split_ifs <;> omega
  · simp only [if_neg hj] at a1 ⊢
    by_cases hv : s._save = InvalidIndex
    · simp only [winc, wsub, wordSize, InvalidIndex] at *
      split_ifs <;> omega
    · have := h4 hv
      simp only [winc, wsub, wordSize, InvalidIndex] at *
      split_ifs <;> omega

theorem size_pop {s : simple_restorable_stack T} (hi : Inv s) (hpos : 0 < s.size) :
    ∃ x s1, s.pop = .ok (x, s1) ∧ s1.size + 1 = s.size := by
  obtain ⟨h1, h2, h3, h4⟩ := hi
  have hp : 0 < s._pos ∧
      wdec (if s._pos = s._save then s._jump else s._pos) < s._buffer.length ∧
      (if wdec (if s._pos = s._save then s._jump else s._pos) ≥ s._save then
          wsub (wdec (if s._pos = s._save then s._jump else s._pos)) (wsub s._save s._jump)
        else wdec (if s._pos = s._save then s._jump else s._pos)) + 1 = s.size := by
    unfold size at hpos ⊢
    by_cases hv : s._save = InvalidIndex
    · simp only [wdec, wsub, wordSize, InvalidIndex] at *
      split_ifs at hpos ⊢ <;> omega
    · have := h4 hv
      simp only [wdec, wsub, wordSize, InvalidIndex] at *
      split_ifs at hpos ⊢ <;> omega
  obtain ⟨p1, p2, p3⟩ := hp
  obtain ⟨x, hx⟩ : ∃ x, s._buffer[wdec (if s._pos = s._save then s._jump else s._pos)]?
      = some x := ⟨_, List.getElem?_eq_getElem p2⟩
  refine ⟨x, _, pop_ok_iff.mpr ⟨p1, hx, rfl⟩, ?_⟩
  unfold size at p3 ⊢
  simp only []
  exact p3

theorem pop_push {s s1 : simple_restorable_stack T} {v : T} (hi : Inv s)
    (h : s.push v = .ok s1) : ∃ s2, s1.pop = .ok (v, s2) ∧ s2.size = s.size := by
  obtain ⟨h1, h2, h3, h4⟩ := hi
  obtain ⟨-, a1, a2, rfl⟩ := push_ok_iff.mp h
  have key : ∀ q, q = (if s._save ≠ InvalidIndex ∧ s._pos < s._save then s._save else s._pos) →
      winc q ≠ s._save ∧ wdec (winc q) = q ∧ 0 < winc q := by
    intro q hq
    by_cases hv : s._save = InvalidIndex
    · simp only [winc, wdec, wordSize, InvalidIndex] at *
      split_ifs at hq a1 <;> omega
    · have := h4 hv
      simp only [winc, wdec, wordSize, InvalidIndex] at *
      split_ifs at hq a1 <;> omega
  obtain ⟨k1, k2, k3⟩ := key _ rfl
  refine ⟨_, pop_ok_iff.mpr ⟨k3, ?_, rfl⟩, ?_⟩
  · simp only []
    rw [if_neg k1, k2]
    exact List.getElem?_set_self a2
  · simp only []
    rw [if_neg k1, k2]
    unfold size
    simp only []
    by_cases hj : s._save ≠ InvalidIndex ∧ s._pos < s._save
    · have := h4 hj.1
      simp only [if_pos hj]
      simp only [wsub, wordSize, InvalidIndex] at *
      split_ifs <;> omega
    · simp only [if_neg hj]

theorem jump_eq_of_pop {s s1 : simple_restorable_stack T} {x : T}
    (h : s.pop = .ok (x, s1)) : s1._jump = s._jump ∧ s1._size = s._size := by
  obtain ⟨-, -, h1⟩ := pop_ok_iff.mp h
  rw [h1]
  exact ⟨rfl, rfl⟩

theorem jump_tracks_jump_set (ops : List (Op T)) :
    ∀ (b : Bool) {s s1 : simple_restorable_stack T}, Inv s →
      ((s._jump ≠ InvalidIndex ↔ b = true) ∧ (s._jump ≠ InvalidIndex → s._jump ≤ s._size)) →
      s.run ops = .ok s1 →
      (s1._jump ≠ InvalidIndex ↔
        ops.foldl (fun b op =>
          match op with
          | .save => true
          | .restore => false
          | .clear => false
          | _ => b) b = true) ∧
      (s1._jump ≠ InvalidIndex → s1._jump ≤ s1._size) := by
  induction ops with
  | nil =>
    intro b s s1 _ hb h
    simp only [run, Except.ok.injEq] at h
    subst h
    exact ⟨by simpa using hb.1, hb.2⟩
  | cons op ops ih =>
    intro b s s1 hi hb h
    simp only [run] at h
    cases hs : s.step op with
    | error e => rw [hs] at h; simp at h
    | ok s2 =>
      rw [hs] at h
      have hi2 := Inv_step hi hs
      simp only [List.foldl_cons]
      refine ih _ hi2 ?_ h
      obtain ⟨i1, i2, i3, i4⟩ := hi
      obtain ⟨hb, hle⟩ := hb
      cases op with
      | push v =>
        obtain ⟨-, -, -, rfl⟩ := push_ok_iff.mp hs
        simp only []
        by_cases hj : s._save ≠ InvalidIndex ∧ s._pos < s._save
        · have hjs := i4 hj.1
          have hbt : b = true := hb.mp (by omega)
          simp only [if_pos hj, hbt, iff_true]
          exact ⟨by omega, fun _ => i1⟩
        · simp only [if_neg hj]
          exact ⟨hb, hle⟩
      | pop =>
        simp only [step] at hs
        cases hp : s.pop with
        | error e => rw [hp] at hs; simp [Except.map] at hs
        | ok r =>
          rw [hp] at hs
          simp only [Except.map, Except.ok.injEq] at hs
          obtain ⟨x, s3⟩ := r
          subst hs
          obtain ⟨e1, e2⟩ := jump_eq_of_pop hp
          rw [e1, e2]
          exact ⟨hb, hle⟩
      | save =>
        simp only [step, save] at hs
        split_ifs at hs
        simp only [Except.ok.injEq] at hs
        subst hs
        simp only [ne_eq, iff_true]
        exact ⟨by omega, fun _ => i1⟩
      | restore =>
        simp only [step, restore] at hs
        split_ifs at hs
        simp only [Except.ok.injEq] at hs
        subst hs
        simp
      | forget =>
        simp only [step, forget] at hs
        split_ifs at hs
        simp only [Except.ok.injEq] at hs
        subst hs
        exact ⟨hb, hle⟩
      | clear =>
        simp only [step, Except.ok.injEq] at hs
        subst hs
        simp [clear]

theorem capacity_run (ops : List (Op T)) :
    ∀ {s s1 : simple_restorable_stack T}, s.run ops = .ok s1 → s1._size = s._size := by
  induction ops with
  | nil =>
    intro s s1 h
    simp only [run, Except.ok.injEq] at h
    subst h
    rfl
  | cons op ops ih =>
    intro s s1 h
    simp only [run] at h
    cases hs : s.step op with
    | error e => rw [hs] at h; simp at h
    | ok s2 =>
      rw [hs] at h
      rw [ih h]
      cases op with
      | push v =>
        obtain ⟨-, -, -, h1⟩ := push_ok_iff.mp hs
        rw [h1]
      | pop =>
        simp only [step] at hs
        cases hp : s.pop with
        | error e => rw [hp] at hs; simp [Except.map] at hs
        | ok r =>
          rw [hp] at hs
          simp only [Except.map, Except.ok.injEq] at hs
          obtain ⟨x, s3⟩ := r
          subst hs
          exact (jump_eq_of_pop hp).2
      | save =>
        simp only [step, save] at hs
        split_ifs at hs
        simp only [Except.ok.injEq] at hs
        subst hs
        rfl
      | restore =>
        simp only [step, restore] at hs
        split_ifs at hs
        simp only [Except.ok.injEq] at hs
        subst hs
        rfl
      | forget =>
        simp only [step, forget] at hs
        split_ifs at hs
        simp only [Except.ok.injEq] at hs
        subst hs
        rfl
      | clear =>
        simp only [step, Except.ok.injEq] at hs
        subst hs
        rfl

theorem outstanding_keep (mid : List (Op T))
    (h : ∀ op ∈ mid, op.ends = false) :
    mid.foldl (fun b op =>
      match op with
      | .save => true
      | .restore => false
      | .forget => false
      | .clear => false
      | _ => b) true = true := by
  induction mid with
  | nil => rfl
  | cons op mid ih =>
    have h1 := h op (List.mem_cons_self _ _)
    have h2 : ∀ o ∈ mid, o.ends = false := fun o ho => h o (List.mem_cons_of_mem _ ho)
    simp only [List.foldl_cons]
    cases op <;> simp only [Op.ends, reduceCtorEq] at h1 <;> exact ih h2

theorem outstanding_after_save (ops mid : List (Op T))
    (h : ∀ op ∈ mid, op.ends = false) : outstanding (ops ++ Op.save :: mid) = true := by
  unfold outstanding
  rw [List.foldl_append, List.foldl_cons]
  exact outstanding_keep mid h

theorem outstanding_after_end (ops : List (Op T)) (e : Op T)
    (h : e.ends = true) : outstanding (ops ++ [e]) = false := by
  unfold outstanding
  rw [List.foldl_append, List.foldl_cons, List.foldl_nil]
  cases e <;> simp only [Op.ends, reduceCtorEq] at h <;> rfl

theorem push_exec_agrees (s : simple_restorable_stack T) (v : T) :
    s.push v =
      match s.push_exec v with
      | (s1, .ok _) => .ok s1
      | (_, .error e) => .error e := by
  unfold push push_exec
  by_cases hv : v = s._null
  · simp only [if_pos hv]
  · simp only [if_neg hv]
    split_ifs <;> rfl

theorem push_exec_overflow_relocates :
    (create [0, 0] 2 0).run [.push 1, .push 2, .save, .pop] = .ok exBelowSnapshot ∧
      exBelowSnapshot.push 3 = .error Fault.Overflow ∧
      exBelowSnapshot.push_exec 3 = (exBelowSnapshotFailed, .error Fault.Overflow) ∧
      exBelowSnapshotFailed ≠ exBelowSnapshot := by
  decide

end simple_restorable_stack

/-! ## Lemmas on indices -/

theorem winc_eq {q : Nat} (h : q + 1 < wordSize) : winc q = q + 1 := by
  unfold winc
  exact Nat.mod_eq_of_lt h

theorem wdec_succ {q : Nat} (h : q + 1 < wordSize) : wdec (q + 1) = q := by
  unfold wdec
  have : q + 1 + wordSize - 1 = q + wordSize := by omega
  rw [this, Nat.add_mod_right]
  exact Nat.mod_eq_of_lt (by omega)

theorem lt_wordSize_of_lt_InvalidIndex {q : Nat} (h : q < InvalidIndex) :
    q + 1 < wordSize := by
  simp only [InvalidIndex, wordSize] at *
  omega

/-! ## Lemmas on `basic_stack` -/

namespace basic_stack

theorem bs_length_unname (count : Nat) :
    ∀ (stack : List entry) (i : Nat), (unname stack i count).length = stack.length := by
  induction count with
  | zero => intro stack i; rfl
  | succ n ih =>
    intro stack i
    simp only [unname]
    split
    · rw [ih, List.length_set]
    · rw [ih]

theorem bs_add_ok_iff {s s1 : basic_stack} {name : Nat} {val : value} :
    s.add name val = .ok s1 ↔
      (if s._pos < s._save ∧ s._save ≠ InvalidIndex then s._save else s._pos) < s._size ∧
        (if s._pos < s._save ∧ s._save ≠ InvalidIndex then s._save else s._pos)
          < s._stack.length ∧
        s1 = { s with
          _stack := s._stack.set
            (if s._pos < s._save ∧ s._save ≠ InvalidIndex then s._save else s._pos)
            { name := name, data := val },
          _pos := winc (if s._pos < s._save ∧ s._save ≠ InvalidIndex then s._save else s._pos),
          _jump := if s._pos < s._save ∧ s._save ≠ InvalidIndex then s._pos else s._jump } := by
  unfold add
  by_cases hj : s._pos < s._save ∧ s._save ≠ InvalidIndex
  · simp only [if_pos hj]
    by_cases h1 : s._save < s._size
    · by_cases h2 : s._save < s._stack.length
      · simp only [h1, h2, not_true_eq_false, if_false, if_true, true_and, Except.ok.injEq]
        exact eq_comm
      · simp [h1, h2]
    · simp [h1]
  · simp only [if_neg hj]
    by_cases h1 : s._pos < s._size
    · by_cases h2 : s._pos < s._stack.length
      · simp only [h1, h2, not_true_eq_false, if_false, if_true, true_and, Except.ok.injEq]
        exact eq_comm
      · simp [h1, h2]
    · simp [h1]

theorem bs_Bounded_add {s s1 : basic_stack} {name : Nat} {val : value} (hi : Bounded s)
    (h : s.add name val = .ok s1) : Bounded s1 ∧ s1._save = s._save := by
  obtain ⟨h1, h2, h3, h4⟩ := hi
  obtain ⟨a1, a2, rfl⟩ := bs_add_ok_iff.mp h
  refine ⟨⟨?_, by simpa using h2, h3, h4⟩, rfl⟩
  simp only [winc, wordSize, InvalidIndex] at *
  omega

theorem bs_Bounded_set {InvalidHash : Nat} {s s1 : basic_stack} {name : Nat} {val : value}
    (hi : Bounded s) (h : s.set InvalidHash name val = .ok s1) :
    Bounded s1 ∧ s1._save = s._save := by
  unfold set at h
  split_ifs at h
  · exact bs_Bounded_add hi h
  · split at h
    · simp at h
    · exact bs_Bounded_add hi h
    · split at h
      · simp only [Except.ok.injEq] at h
        subst h
        obtain ⟨h1, h2, h3, h4⟩ := hi
        exact ⟨⟨h1, by simpa using h2, h3, h4⟩, rfl⟩
      · simp at h

theorem bs_Bounded_pop_frame {InvalidHash : Nat} {s s1 : basic_stack} {r : Nat} {k : frame_type}
    (hi : Bounded s) (h : s.pop_frame InvalidHash = .ok (r, k, s1)) :
    Bounded s1 ∧ s1._save = s._save := by
  obtain ⟨h1, h2, h3, h4⟩ := hi
  unfold pop_frame at h
  split_ifs at h
  split at h
  · simp at h
  · rename_i p hp
    split at h
    · simp at h
    · rename_i e he
      have hlt := (List.getElem?_eq_some_iff.mp he).1
      split_ifs at h <;> simp only [Except.ok.injEq, Prod.mk.injEq] at h <;>
        obtain ⟨-, -, rfl⟩ := h <;>
        exact ⟨⟨by simp only []; omega, h2, h3, h4⟩, rfl⟩

theorem bs_Bounded_step {InvalidHash : Nat} {s s1 : basic_stack} {op : Op} (hi : Bounded s)
    (h : s.step InvalidHash op = .ok s1) :
    Bounded s1 ∧ (s1._save ≠ InvalidIndex ↔
      (match op with
        | .save => true
        | .restore => false
        | .forget => false
        | .clear => false
        | _ => decide (s._save ≠ InvalidIndex)) = true) := by
  cases op with
  | set name val =>
    obtain ⟨hb, hs⟩ := bs_Bounded_set hi h
    exact ⟨hb, by simp [hs]⟩
  | push_frame r k =>
    obtain ⟨hb, hs⟩ := bs_Bounded_add hi h
    exact ⟨hb, by simp [hs]⟩
  | pop_frame =>
    simp only [step] at h
    cases hp : s.pop_frame InvalidHash with
    | error e => rw [hp] at h; simp [Except.map] at h
    | ok res =>
      rw [hp] at h
      simp only [Except.map, Except.ok.injEq] at h
      obtain ⟨r, k, s2⟩ := res
      subst h
      obtain ⟨hb, hs⟩ := bs_Bounded_pop_frame hi hp
      exact ⟨hb, by simp [hs]⟩
  | save =>
    obtain ⟨h1, h2, h3, h4⟩ := hi
    simp only [step, save] at h
    split_ifs at h
    simp only [Except.ok.injEq] at h
    subst h
    simp only [Bounded, InvalidIndex, ne_eq, iff_true] at *
    omega
  | restore =>
    obtain ⟨h1, h2, h3, h4⟩ := hi
    simp only [step, restore] at h
    split_ifs at h with hv
    simp only [Except.ok.injEq] at h
    subst h
    have := h4 hv
    exact ⟨⟨this, h2, h3, fun hx => absurd rfl hx⟩, by simp⟩
  | forget =>
    obtain ⟨h1, h2, h3, h4⟩ := hi
    simp only [step, forget] at h
    split_ifs at h <;> simp only [Except.ok.injEq] at h <;> subst h
    · exact ⟨⟨h1, by simpa [bs_length_unname] using h2, h3, fun hx => absurd rfl hx⟩, by simp⟩
    · exact ⟨⟨h1, h2, h3, fun hx => absurd rfl hx⟩, by simp⟩
  | clear =>
    obtain ⟨h1, h2, h3, h4⟩ := hi
    simp only [step, Except.ok.injEq] at h
    subst h
    exact ⟨⟨Nat.zero_le _, h2, h3, fun hx => absurd rfl hx⟩, by simp [clear]⟩

theorem bs_save_tracks_outstanding {InvalidHash : Nat} (ops : List Op) :
    ∀ (b : Bool) {s s1 : basic_stack}, Bounded s →
      (s._save ≠ InvalidIndex ↔ b = true) → s.run InvalidHash ops = .ok s1 →
      Bounded s1 ∧ (s1._save ≠ InvalidIndex ↔
        ops.foldl (fun b op =>
          match op with
          | .save => true
          | .restore => false
          | .forget => false
          | .clear => false
          | _ => b) b = true) := by
  induction ops with
  | nil =>
    intro b s s1 hi hb h
    simp only [run, Except.ok.injEq] at h
    subst h
    exact ⟨hi, by simpa using hb⟩
  | cons op ops ih =>
    intro b s s1 hi hb h
    simp only [run] at h
    cases hs : s.step InvalidHash op with
    | error e => rw [hs] at h; simp at h
    | ok s2 =>
      rw [hs] at h
      obtain ⟨hi2, hk⟩ := bs_Bounded_step hi hs
      simp only [List.foldl_cons]
      refine ih _ hi2 ?_ h
      rw [hk]
      cases op <;> simp [hb]

theorem bs_snapshot_contract (InvalidHash : Nat) (data : List entry)
    (hlen : data.length < InvalidIndex) (ops : List Op) (s : basic_stack)
    (hrun : (create data data.length).run InvalidHash ops = .ok s) :
    (s.save = .error Fault.InvalidState ↔ outstanding ops = true) ∧
    ((∃ s1, s.save = .ok s1) ↔ outstanding ops = false) ∧
    (s.restore = .error Fault.InvalidState ↔ outstanding ops = false) ∧
    ((∃ s1, s.restore = .ok s1) ↔ outstanding ops = true) ∧
    (s.forget = .error Fault.InvalidState ↔ outstanding ops = false) ∧
    ((∃ s1, s.forget = .ok s1) ↔ outstanding ops = true) := by
  have hi0 : Bounded (create data data.length) :=
    ⟨Nat.zero_le _, rfl, hlen, fun hx => absurd rfl hx⟩
  obtain ⟨⟨i1, i2, i3, i4⟩, hk⟩ :=
    bs_save_tracks_outstanding ops false hi0 (by simp [create]) hrun
  unfold outstanding
  by_cases hv : s._save = InvalidIndex
  · have ho : ¬ _ = true := fun h => (hk.mpr h) hv
    simp only [Bool.not_eq_true] at ho
    rw [ho]
    simp [save, restore, forget, hv]
  · have ho := hk.mp hv
    rw [ho]
    have hf : ¬ s._stack.length < s._save := by
      have := i4 hv
      omega
    simp only [save, restore, forget, hv, hf, not_false_eq_true, not_true_eq_false, if_false,
      if_true, ne_eq]
    refine ⟨by simp, by simp, by simp, by simp, ?_, ?_⟩
    · split_ifs <;> simp
    · split_ifs <;> simp

theorem bs_Reachable_bounded {InvalidHash : Nat} {s : basic_stack}
    (h : Reachable InvalidHash s) : Bounded s := by
  obtain ⟨data, ops, hlen, hrun⟩ := h
  have hi0 : Bounded (create data data.length) :=
    ⟨Nat.zero_le _, rfl, hlen, fun hx => absurd rfl hx⟩
  exact (bs_save_tracks_outstanding ops false hi0 (by simp [create]) hrun).1

theorem bs_add_spec {s s1 : basic_stack} {name : Nat} {val : value} (hi : Bounded s)
    (h : s.add name val = .ok s1) :
    ∃ q, q < s._size ∧ s._pos ≤ q ∧ (s._save ≠ InvalidIndex → s._save ≤ q) ∧
      s1._stack = s._stack.set q { name := name, data := val } ∧ s1._pos = q + 1 ∧
      s1._save = s._save ∧ s1._size = s._size := by
  obtain ⟨h1, h2, h3, h4⟩ := hi
  obtain ⟨a1, a2, rfl⟩ := bs_add_ok_iff.mp h
  refine ⟨_, a1, ?_, ?_, rfl, winc_eq (lt_wordSize_of_lt_InvalidIndex (by omega)), rfl, rfl⟩
  · split_ifs <;> omega
  · intro hv
    split_ifs with hj
    · exact Nat.le_refl _
    · have : ¬ s._pos < s._save := fun hlt => hj ⟨hlt, hv⟩
      omega

theorem bs_add_error {s : basic_stack} {name : Nat} {val : value} {e : Fault}
    (hi : Bounded s) (h : s.add name val = .error e) : e = Fault.Overflow := by
  obtain ⟨h1, h2, h3, h4⟩ := hi
  unfold add at h
  by_cases hj : s._pos < s._save ∧ s._save ≠ InvalidIndex
  · simp only [if_pos hj] at h
    by_cases ho : s._save < s._size
    · rw [if_neg (not_not.mpr ho), if_pos (by omega)] at h
      simp at h
    · rw [if_pos ho] at h
      simp only [Except.error.injEq] at h
      exact h.symm
  · simp only [if_neg hj] at h
    by_cases ho : s._pos < s._size
    · rw [if_neg (not_not.mpr ho), if_pos (by omega)] at h
      simp at h
    · rw [if_pos ho] at h
      simp only [Except.error.injEq] at h
      exact h.symm

theorem bs_pop_frame_after_add {InvalidHash : Nat} {s s1 : basic_stack} {val : value}
    (hi : Bounded s) (h : s.add InvalidHash val = .ok s1) :
    ∃ s2, s1.pop_frame InvalidHash =
      .ok (val.as_divert,
        if val.data_type = data_type.tunnel_frame then frame_type.tunnel
        else frame_type.function, s2) := by
  obtain ⟨q, hq, -, -, hst, hpos, -, -⟩ := bs_add_spec hi h
  obtain ⟨h1, h2, h3, h4⟩ := hi
  have hlen : q < s._stack.length := by omega
  have hget : s1._stack[q]? = some { name := InvalidHash, data := val } := by
    rw [hst]
    exact List.getElem?_set_self hlen
  have hdec : wdec s1._pos = q := by
    rw [hpos]
    exact wdec_succ (lt_wordSize_of_lt_InvalidIndex (by omega))
  refine ⟨{ s1 with _pos := q }, ?_⟩
  unfold pop_frame
  rw [if_neg (by omega), hdec]
  simp only [frame_loop, hget, ne_eq, not_true_eq_false, false_and, if_false]

theorem bs_get_after_add (InvalidHash name : Nat) {s s1 : basic_stack} {name0 : Nat}
    {val : value} (hi : Bounded s) {q : Nat} (hq : q < s._size)
    (hst : s1._stack = s._stack.set q { name := name0, data := val })
    (hpos : s1._pos = q + 1) :
    s1._stack[q]? = some { name := name0, data := val } ∧
      (name0 = name → s1.get InvalidHash name = .ok (some q)) ∧
      (name0 ≠ name → name0 = InvalidHash → s1.get InvalidHash name = .ok none) := by
  obtain ⟨h1, h2, h3, h4⟩ := hi
  have hlen : q < s._stack.length := by omega
  have hget : s1._stack[q]? = some { name := name0, data := val } := by
    rw [hst]
    exact List.getElem?_set_self hlen
  have hdec : wdec s1._pos = q := by
    rw [hpos]
    exact wdec_succ (lt_wordSize_of_lt_InvalidIndex (by omega))
  refine ⟨hget, ?_, ?_⟩
  · intro hn
    unfold get
    rw [if_neg (by omega)]
    simp only [get_loop, hdec, hget, hn, if_true]
  · intro hn hb
    unfold get
    rw [if_neg (by omega)]
    subst hb
    simp only [get_loop, hdec, hget, hn, if_true, if_false]

theorem bs_get_loop_visited {InvalidHash : Nat} {s : basic_stack} {name : Nat}
    (hn : name ≠ InvalidHash) :
    ∀ (fuel i j : Nat), get_loop InvalidHash s name fuel i = .ok (some j) →
      j ∈ get_visited InvalidHash s name fuel i ∧
      (∃ e, s._stack[j]? = some e ∧ e.name = name) ∧
      ∀ k ∈ get_visited InvalidHash s name fuel i, ∀ e, s._stack[k]? = some e →
        e.name ≠ InvalidHash := by
  intro fuel
  induction fuel with
  | zero => intro i j h; simp [get_loop] at h
  | succ n ih =>
    intro i j h
    simp only [get_loop] at h
    simp only [get_visited]
    cases hs : s._stack[wdec i]? with
    | none => rw [hs] at h; simp at h
    | some e =>
      rw [hs] at h
      simp only [] at h ⊢
      by_cases h1 : e.name = name
      · rw [if_pos h1] at h
        rw [if_pos h1]
        simp only [Except.ok.injEq, Option.some.injEq] at h
        subst h
        refine ⟨List.mem_singleton.mpr rfl, ⟨e, hs, h1⟩, ?_⟩
        intro k hk e1 he1
        rw [List.mem_singleton.mp hk, hs] at he1
        simp only [Option.some.injEq] at he1
        subst he1
        rw [h1]
        exact hn
      · rw [if_neg h1] at h
        rw [if_neg h1]
        by_cases h2 : e.name = InvalidHash
        · rw [if_pos h2] at h
          simp at h
        · rw [if_neg h2] at h
          rw [if_neg h2]
          by_cases h3 : (if wdec i = s._save then s._jump else wdec i) > 0
          · rw [if_pos h3] at h
            rw [if_pos h3]
            obtain ⟨m1, m2, m3⟩ := ih _ j h
            refine ⟨List.mem_cons_of_mem _ m1, m2, ?_⟩
            intro k hk e1 he1
            rcases List.mem_cons.mp hk with hk1 | hk1
            · rw [hk1, hs] at he1
              simp only [Option.some.injEq] at he1
              subst he1
              exact h2
            · exact m3 k hk1 e1 he1
          · rw [if_neg h3] at h
            simp at h

theorem bs_outstanding_keep (mid : List (Op))
    (h : ∀ op ∈ mid, op.ends = false) :
    mid.foldl (fun b op =>
      match op with
      | .save => true
      | .restore => false
      | .forget => false
      | .clear => false
      | _ => b) true = true := by
  induction mid with
  | nil => rfl
  | cons op mid ih =>
    have h1 := h op (List.mem_cons_self _ _)
    have h2 : ∀ o ∈ mid, o.ends = false := fun o ho => h o (List.mem_cons_of_mem _ ho)
    simp only [List.foldl_cons]
    cases op <;> simp only [Op.ends, reduceCtorEq] at h1 <;> exact ih h2

theorem bs_outstanding_after_save (ops mid : List (Op))
    (h : ∀ op ∈ mid, op.ends = false) : outstanding (ops ++ Op.save :: mid) = true := by
  unfold outstanding
  rw [List.foldl_append, List.foldl_cons]
  exact bs_outstanding_keep mid h

theorem bs_outstanding_after_end (ops : List (Op)) (e : Op)
    (h : e.ends = true) : outstanding (ops ++ [e]) = false := by
  unfold outstanding
  rw [List.foldl_append, List.foldl_cons, List.foldl_nil]
  cases e <;> simp only [Op.ends, reduceCtorEq] at h <;> rfl

end basic_stack

/-! ## Lemmas on `basic_eval_stack` -/

namespace basic_eval_stack

theorem es_length_nullify (count : Nat) :
    ∀ (stack : List value) (i : Nat), (nullify stack i count).length = stack.length := by
  induction count with
  | zero => intro stack i; rfl
  | succ n ih => intro stack i; simp [nullify, ih]

theorem es_push_ok_iff {s s1 : basic_eval_stack} {val : value} :
    s.push val = .ok s1 ↔
      (if s._pos < s._save ∧ s._save ≠ InvalidIndex then s._save else s._pos) < s._size ∧
        (if s._pos < s._save ∧ s._save ≠ InvalidIndex then s._save else s._pos)
          < s._stack.length ∧
        s1 = { s with
          _stack := s._stack.set
            (if s._pos < s._save ∧ s._save ≠ InvalidIndex then s._save else s._pos) val,
          _pos := winc (if s._pos < s._save ∧ s._save ≠ InvalidIndex then s._save else s._pos),
          _jump := if s._pos < s._save ∧ s._save ≠ InvalidIndex then s._pos else s._jump } := by
  unfold push
  by_cases hj : s._pos < s._save ∧ s._save ≠ InvalidIndex
  · simp only [if_pos hj]
    by_cases h1 : s._save < s._size
    · by_cases h2 : s._save < s._stack.length
      · simp only [h1, h2, not_true_eq_false, if_false, if_true, true_and, Except.ok.injEq]
        exact eq_comm
      · simp [h1, h2]
    · simp [h1]
  · simp only [if_neg hj]
    by_cases h1 : s._pos < s._size
    · by_cases h2 : s._pos < s._stack.length
      · simp only [h1, h2, not_true_eq_false, if_false, if_true, true_and, Except.ok.injEq]
        exact eq_comm
      · simp [h1, h2]
    · simp [h1]

theorem es_Bounded_push {s s1 : basic_eval_stack} {val : value} (hi : Bounded s)
    (h : s.push val = .ok s1) : Bounded s1 ∧ s1._save = s._save := by
  obtain ⟨h1, h2, h3, h4⟩ := hi
  obtain ⟨a1, a2, rfl⟩ := es_push_ok_iff.mp h
  refine ⟨⟨?_, by simpa using h2, h3, h4⟩, rfl⟩
  simp only [winc, wordSize, InvalidIndex] at *
  omega

theorem es_pop_ok_iff {s s1 : basic_eval_stack} {v : value} :
    s.pop = .ok (v, s1) ↔
      0 < s._pos ∧ ∃ p, s.pop_skip (if s._pos = s._save then s._jump else s._pos) = .ok p ∧
        s._stack[wdec p]? = some v ∧ s1 = { s with _pos := wdec p } := by
  unfold pop
  by_cases hp : s._pos > 0
  · simp only [hp, not_true_eq_false, if_false, true_and]
    cases hk : s.pop_skip (if s._pos = s._save then s._jump else s._pos) with
    | error e => simp
    | ok p =>
      simp only [Except.ok.injEq, exists_eq_left']
      cases hb : s._stack[wdec p]? with
      | none => simp
      | some w =>
        simp only [Except.ok.injEq, Prod.mk.injEq, Option.some.injEq]
        constructor
        · rintro ⟨rfl, rfl⟩; exact ⟨rfl, rfl⟩
        · rintro ⟨rfl, rfl⟩; exact ⟨rfl, rfl⟩
  · simp [hp]

theorem es_Bounded_pop {s s1 : basic_eval_stack} {v : value} (hi : Bounded s)
    (h : s.pop = .ok (v, s1)) : Bounded s1 ∧ s1._save = s._save := by
  obtain ⟨h1, h2, h3, h4⟩ := hi
  obtain ⟨-, p, -, hw, rfl⟩ := es_pop_ok_iff.mp h
  have hlt := (List.getElem?_eq_some_iff.mp hw).1
  exact ⟨⟨by simp only []; omega, h2, h3, h4⟩, rfl⟩

theorem es_Bounded_step {s s1 : basic_eval_stack} {op : Op} (hi : Bounded s)
    (h : s.step op = .ok s1) :
    Bounded s1 ∧ (s1._save ≠ InvalidIndex ↔
      (match op with
        | .save => true
        | .restore => false
        | .forget => false
        | .clear => false
        | _ => decide (s._save ≠ InvalidIndex)) = true) := by
  cases op with
  | push v =>
    obtain ⟨hb, hs⟩ := es_Bounded_push hi h
    exact ⟨hb, by simp [hs]⟩
  | pop =>
    simp only [step] at h
    cases hp : s.pop with
    | error e => rw [hp] at h; simp [Except.map] at h
    | ok res =>
      rw [hp] at h
      simp only [Except.map, Except.ok.injEq] at h
      obtain ⟨v, s2⟩ := res
      subst h
      obtain ⟨hb, hs⟩ := es_Bounded_pop hi hp
      exact ⟨hb, by simp [hs]⟩
  | save =>
    obtain ⟨h1, h2, h3, h4⟩ := hi
    simp only [step, save] at h
    split_ifs at h
    simp only [Except.ok.injEq] at h
    subst h
    simp only [Bounded, InvalidIndex, ne_eq, iff_true] at *
    omega
  | restore =>
    obtain ⟨h1, h2, h3, h4⟩ := hi
    simp only [step, restore] at h
    split_ifs at h with hv
    simp only [Except.ok.injEq] at h
    subst h
    have := h4 hv
    exact ⟨⟨this, h2, h3, fun hx => absurd rfl hx⟩, by simp⟩
  | forget =>
    obtain ⟨h1, h2, h3, h4⟩ := hi
    simp only [step, forget] at h
    split_ifs at h <;> simp only [Except.ok.injEq] at h <;> subst h
    · exact ⟨⟨h1, by simpa [es_length_nullify] using h2, h3, fun hx => absurd rfl hx⟩, by simp⟩
    · exact ⟨⟨h1, h2, h3, fun hx => absurd rfl hx⟩, by simp⟩
  | clear =>
    obtain ⟨h1, h2, h3, h4⟩ := hi
    simp only [step, Except.ok.injEq] at h
    subst h
    exact ⟨⟨Nat.zero_le _, h2, h3, fun hx => absurd rfl hx⟩, by simp [clear]⟩

theorem es_save_tracks_outstanding (ops : List Op) :
    ∀ (b : Bool) {s s1 : basic_eval_stack}, Bounded s →
      (s._save ≠ InvalidIndex ↔ b = true) → s.run ops = .ok s1 →
      Bounded s1 ∧ (s1._save ≠ InvalidIndex ↔
        ops.foldl (fun b op =>
          match op with
          | .save => true
          | .restore => false
          | .forget => false
          | .clear => false
          | _ => b) b = true) := by
  induction ops with
  | nil =>
    intro b s s1 hi hb h
    simp only [run, Except.ok.injEq] at h
    subst h
    exact ⟨hi, by simpa using hb⟩
  | cons op ops ih =>
    intro b s s1 hi hb h
    simp only [run] at h
    cases hs : s.step op with
    | error e => rw [hs] at h; simp at h
    | ok s2 =>
      rw [hs] at h
      obtain ⟨hi2, hk⟩ := es_Bounded_step hi hs
      simp only [List.foldl_cons]
      refine ih _ hi2 ?_ h
      rw [hk]
      cases op <;> simp [hb]

theorem es_snapshot_contract (data : List value)
    (hlen : data.length < InvalidIndex) (ops : List Op) (s : basic_eval_stack)
    (hrun : (create data data.length).run ops = .ok s) :
    (s.save = .error Fault.InvalidState ↔ outstanding ops = true) ∧
    ((∃ s1, s.save = .ok s1) ↔ outstanding ops = false) ∧
    (s.restore = .error Fault.InvalidState ↔ outstanding ops = false) ∧
    ((∃ s1, s.restore = .ok s1) ↔ outstanding ops = true) ∧
    (s.forget = .error Fault.InvalidState ↔ outstanding ops = false) ∧
    ((∃ s1, s.forget = .ok s1) ↔ outstanding ops = true) := by
  have hi0 : Bounded (create data data.length) :=
    ⟨Nat.zero_le _, rfl, hlen, fun hx => absurd rfl hx⟩
  obtain ⟨⟨i1, i2, i3, i4⟩, hk⟩ :=
    es_save_tracks_outstanding ops false hi0 (by simp [create]) hrun
  unfold outstanding
  by_cases hv : s._save = InvalidIndex
  · have ho : ¬ _ = true := fun h => (hk.mpr h) hv
    simp only [Bool.not_eq_true] at ho
    rw [ho]
    simp [save, restore, forget, hv]
  · have ho := hk.mp hv
    rw [ho]
    have hf : ¬ s._stack.length < s._save := by
      have := i4 hv
      omega
    simp only [save, restore, forget, hv, hf, not_false_eq_true, not_true_eq_false, if_false,
      if_true, ne_eq]
    refine ⟨by simp, by simp, by simp, by simp, ?_, ?_⟩
    · split_ifs <;> simp
    · split_ifs <;> simp

theorem es_outstanding_keep (mid : List (Op))
    (h : ∀ op ∈ mid, op.ends = false) :
    mid.foldl (fun b op =>
      match op with
      | .save => true
      | .restore => false
      | .forget => false
      | .clear => false
      | _ => b) true = true := by
  induction mid with
  | nil => rfl
  | cons op mid ih =>
    have h1 := h op (List.mem_cons_self _ _)
    have h2 : ∀ o ∈ mid, o.ends = false := fun o ho => h o (List.mem_cons_of_mem _ ho)
    simp only [List.foldl_cons]
    cases op <;> simp only [Op.ends, reduceCtorEq] at h1 <;> exact ih h2

theorem es_outstanding_after_save (ops mid : List (Op))
    (h : ∀ op ∈ mid, op.ends = false) : outstanding (ops ++ Op.save :: mid) = true := by
  unfold outstanding
  rw [List.foldl_append, List.foldl_cons]
  exact es_outstanding_keep mid h

theorem es_outstanding_after_end (ops : List (Op)) (e : Op)
    (h : e.ends = true) : outstanding (ops ++ [e]) = false := by
  unfold outstanding
  rw [List.foldl_append, List.foldl_cons, List.foldl_nil]
  cases e <;> simp only [Op.ends, reduceCtorEq] at h <;> rfl

end basic_eval_stack

/-! ## Lemmas on the snapshot protocol -/

theorem SnapshotSequel_of_contract {S O : Type} {reach : List O → S → Prop}
    {out : List O → Bool} {save restore forget : S → Except Fault S} (saveOp : O)
    (ends : O → Bool) (hc : SnapshotContract reach out save restore forget)
    (h1 : ∀ (ops : List O) (e : O), ends e = true → out (ops ++ [e]) = false)
    (h2 : ∀ ops mid : List O, (∀ op ∈ mid, ends op = false) →
      out (ops ++ saveOp :: mid) = true) :
    SnapshotSequel reach saveOp ends save := by
  constructor
  · intro ops e s he hr
    exact (hc _ s hr).2.1.mpr (h1 ops e he)
  · intro ops mid s hm hr
    exact (hc _ s hr).1.mpr (h2 ops mid hm)

/-! ## The properties of the specification -/

/-- C1 (save/restore identity).  From a reachable state `s` with no snapshot outstanding,
`save()`, then any `push`/`pop` calls none of which fails, then `restore()`: the `restore`
succeeds and gives a state with the `_pos` of `s` and the slots of `s` below `_pos`, hence
the same `size()`, the same `top()` and the same iteration from every iterator. -/
theorem C1_save_restore_identity {T : Type} [DecidableEq T] (s : simple_restorable_stack T)
    (hr : s.Reachable) (hs : s._save = InvalidIndex) (ops : List (simple_restorable_stack.Op T))
    (hops : ∀ op ∈ ops, op.isPushPop = true) (s2 : simple_restorable_stack T)
    (hrun : s.run (.save :: ops) = .ok s2) :
    ∃ s3, s2.restore = .ok s3 ∧ s3._pos = s._pos ∧
      (∀ i, i < s._pos → s3._buffer[i]? = s._buffer[i]?) ∧
      s3.size = s.size ∧ s3.top = s.top ∧
      ∀ (fuel : Nat) (c : Option Int), s3.iterate fuel c = s.iterate fuel c := by
  obtain ⟨i1, i2, i3, -⟩ := hr.inv
  have hlt : s._pos < InvalidIndex := by omega
  have hsave : s.save = .ok { s with _save := s._pos, _jump := s._pos } := by
    simp [simple_restorable_stack.save, hs]
  simp only [simple_restorable_stack.run, simple_restorable_stack.step, hsave] at hrun
  have hk0 : simple_restorable_stack.Kept s { s with _save := s._pos, _jump := s._pos } :=
    ⟨rfl, rfl, rfl, fun _ _ => rfl⟩
  obtain ⟨k1, k2, k3, k4⟩ :=
    simple_restorable_stack.Kept_run s (by omega) ops hops hk0 hrun
  have hne : s2._save ≠ InvalidIndex := by omega
  refine ⟨{ s2 with _pos := s2._save, _save := InvalidIndex, _jump := InvalidIndex }, ?_, k1, k4,
    ?_, ?_, ?_⟩
  · simp [simple_restorable_stack.restore, hne]
  · rw [simple_restorable_stack.size_of_no_snapshot rfl (by simpa [k1] using hlt),
      simple_restorable_stack.size_of_no_snapshot hs hlt]
    exact k1
  · rw [simple_restorable_stack.top_of_no_snapshot rfl (by simpa [k1] using hlt),
      simple_restorable_stack.top_of_no_snapshot hs hlt]
    simp only [k1]
    by_cases h0 : s._pos > 0
    · rw [k4 (s._pos - 1) (by omega)]
    · simp [h0]
  · exact simple_restorable_stack.iterate_congr k1 rfl hs k3 hlt k4

/-- The scenario of C1: capacity 5, `push A`, `push B` (here `A = 1`, `B = 2`, `C = 3` and the
null value is `0`); then `save`, `pop`, `push C`, `restore` gives size 2 and top `B`, the
next two `pop`s return `B` and `A`, and the third fails with Underflow. -/
theorem C1_save_restore_identity_witness :
    (∃ s3, (simple_restorable_stack.exSavedPopPush).restore = .ok s3 ∧
      s3._pos = simple_restorable_stack.exAB._pos ∧
      (∀ i, i < simple_restorable_stack.exAB._pos →
        s3._buffer[i]? = simple_restorable_stack.exAB._buffer[i]?) ∧
      s3.size = simple_restorable_stack.exAB.size ∧
      s3.top = simple_restorable_stack.exAB.top ∧
      ∀ (fuel : Nat) (c : Option Int),
        s3.iterate fuel c = simple_restorable_stack.exAB.iterate fuel c) ∧
    ((simple_restorable_stack.exSavedPopPush).restore).map
        (fun s3 => (s3.size, s3.top, s3.pop.map Prod.fst,
          s3.pop.bind fun r => r.2.pop.map Prod.fst,
          s3.pop.bind fun r => r.2.pop.bind fun r1 => r1.2.pop.map Prod.fst))
      = .ok (2, .ok 2, .ok 2, .ok 1, .error Fault.Underflow) :=
  ⟨C1_save_restore_identity simple_restorable_stack.exAB
      ⟨[0, 0, 0, 0, 0], 0, [.push 1, .push 2], by decide, by decide⟩ (by decide)
      [.pop, .push 3] (by decide) simple_restorable_stack.exSavedPopPush (by decide),
    by decide⟩

/-- C2 (single outstanding snapshot) fails as stated.  On each of the three stacks `save`,
`clear`, `save` on a new stack succeeds: the second `save` has no `restore` and no `forget`
before it, and does not fail, because `clear` resets `_save`. -/
theorem C2_second_save_after_clear_succeeds :
    ((simple_restorable_stack.create [0, 0] 2 0).run [.save, .clear, .save]).map
        (fun s => s._save) = .ok 0 ∧
      ((basic_stack.create [basic_stack.exSlot, basic_stack.exSlot] 2).run 0
        [.save, .clear, .save]).map (fun s => s._save) = .ok 0 ∧
      ((basic_eval_stack.create [value.none_value, value.none_value] 2).run
        [.save, .clear, .save]).map (fun s => s._save) = .ok 0 := by
  decide

/-- C2 (single outstanding snapshot), amended.  On each of `simple_restorable_stack`,
`basic_stack` and `basic_eval_stack`, after any calls none of which failed: `save()` fails,
with InvalidState, if and only if a snapshot is outstanding, and `restore()` and `forget()`
each fail, with InvalidState, if and only if none is; otherwise they succeed.  A snapshot
is outstanding when the last of the calls `save`, `restore`, `forget`, `clear` made so far
is a `save`.  In particular `save` succeeds right after a `restore`, a `forget` or a
`clear`, and a second `save` with no `restore`, `forget` or `clear` since the first
fails. -/
theorem C2_single_outstanding_snapshot :
    (∀ (T : Type) [DecidableEq T] (null : T),
      SnapshotContract
        (fun ops s => ∃ buffer : List T, buffer.length < InvalidIndex ∧
          (simple_restorable_stack.create buffer buffer.length null).run ops = .ok s)
        simple_restorable_stack.outstanding
        simple_restorable_stack.save simple_restorable_stack.restore
        simple_restorable_stack.forget ∧
      SnapshotSequel
        (fun ops s => ∃ buffer : List T, buffer.length < InvalidIndex ∧
          (simple_restorable_stack.create buffer buffer.length null).run ops = .ok s)
        simple_restorable_stack.Op.save simple_restorable_stack.Op.ends
        simple_restorable_stack.save) ∧
    (∀ InvalidHash : Nat,
      SnapshotContract
        (fun ops s => ∃ data : List entry, data.length < InvalidIndex ∧
          (basic_stack.create data data.length).run InvalidHash ops = .ok s)
        basic_stack.outstanding basic_stack.save basic_stack.restore basic_stack.forget ∧
      SnapshotSequel
        (fun ops s => ∃ data : List entry, data.length < InvalidIndex ∧
          (basic_stack.create data data.length).run InvalidHash ops = .ok s)
        basic_stack.Op.save basic_stack.Op.ends basic_stack.save) ∧
    (SnapshotContract
      (fun ops s => ∃ data : List value, data.length < InvalidIndex ∧
        (basic_eval_stack.create data data.length).run ops = .ok s)
      basic_eval_stack.outstanding basic_eval_stack.save basic_eval_stack.restore
      basic_eval_stack.forget ∧
    SnapshotSequel
      (fun ops s => ∃ data : List value, data.length < InvalidIndex ∧
        (basic_eval_stack.create data data.length).run ops = .ok s)
      basic_eval_stack.Op.save basic_eval_stack.Op.ends basic_eval_stack.save) := by
  refine ⟨?_, ?_, ?_⟩
  · intro T _ null
    have hc : SnapshotContract
        (fun ops s => ∃ buffer : List T, buffer.length < InvalidIndex ∧
          (simple_restorable_stack.create buffer buffer.length null).run ops = .ok s)
        simple_restorable_stack.outstanding
        simple_restorable_stack.save simple_restorable_stack.restore
        simple_restorable_stack.forget := by
      intro ops s ⟨buffer, hlen, hrun⟩
      exact simple_restorable_stack.snapshot_contract buffer null hlen ops s hrun
    exact ⟨hc, SnapshotSequel_of_contract _ _ hc
      simple_restorable_stack.outstanding_after_end
      simple_restorable_stack.outstanding_after_save⟩
  · intro InvalidHash
    have hc : SnapshotContract
        (fun ops s => ∃ data : List entry, data.length < InvalidIndex ∧
          (basic_stack.create data data.length).run InvalidHash ops = .ok s)
        basic_stack.outstanding basic_stack.save basic_stack.restore basic_stack.forget := by
      intro ops s ⟨data, hlen, hrun⟩
      exact basic_stack.bs_snapshot_contract InvalidHash data hlen ops s hrun
    exact ⟨hc, SnapshotSequel_of_contract _ _ hc
      basic_stack.bs_outstanding_after_end basic_stack.bs_outstanding_after_save⟩
  · have hc : SnapshotContract
        (fun ops s => ∃ data : List value, data.length < InvalidIndex ∧
          (basic_eval_stack.create data data.length).run ops = .ok s)
        basic_eval_stack.outstanding basic_eval_stack.save basic_eval_stack.restore
        basic_eval_stack.forget := by
      intro ops s ⟨data, hlen, hrun⟩
      exact basic_eval_stack.es_snapshot_contract data hlen ops s hrun
    exact ⟨hc, SnapshotSequel_of_contract _ _ hc
      basic_eval_stack.es_outstanding_after_end basic_eval_stack.es_outstanding_after_save⟩

/-- Instances of C2: on a generic stack after `push 1`, `save`, `pop` a second `save` fails;
on a call stack after `save`, `restore` a new `save` succeeds; on an evaluation stack after
`push`, `save`, `forget` a `restore` fails. -/
theorem C2_single_outstanding_snapshot_witness :
    simple_restorable_stack.exSnapshotHeld.save = .error Fault.InvalidState ∧
      (∃ s1, basic_stack.exRestored.save = .ok s1) ∧
      basic_eval_stack.exCommitted.restore = .error Fault.InvalidState :=
  ⟨(C2_single_outstanding_snapshot.1 Nat 0).2.2 [.push 1] [.pop]
      simple_restorable_stack.exSnapshotHeld (by decide) ⟨[0, 0], by decide, by decide⟩,
    (C2_single_outstanding_snapshot.2.1 0).2.1 [.save] .restore basic_stack.exRestored
      (by decide) ⟨[basic_stack.exSlot, basic_stack.exSlot], by decide, by decide⟩,
    (((C2_single_outstanding_snapshot.2.2).1
        [.push { tag := data_type.other 0, payload := 5 }, .save, .forget]
        basic_eval_stack.exCommitted
        ⟨[{ tag := data_type.other 0, payload := 0 }, { tag := data_type.other 0, payload := 0 }],
          by decide, by decide⟩).2.2.1).mpr (by decide)⟩

/-- C3 (underflow on `pop`), evaluated where it fails.  After `push 1`, `save`, `pop`,
`push 2`, `pop` on a stack of capacity 5 the state is reachable, `size()` is 0 and `top()`
fails with Underflow, but `pop()` passes its assertion (`_pos` is 1), moves `_pos` to
`_jump = 0`, decrements it and reads the slot `_buffer[2 ^ 64 - 1]`, outside the buffer: it
does not fail with Underflow. -/
theorem C3_pop_at_size_zero_reads_outside_buffer :
    (simple_restorable_stack.create [0, 0, 0, 0, 0] 5 0).run
        [.push 1, .save, .pop, .push 2, .pop] = .ok simple_restorable_stack.exEmptied ∧
      simple_restorable_stack.exEmptied.size = 0 ∧
      simple_restorable_stack.exEmptied.top = .error Fault.Underflow ∧
      simple_restorable_stack.exEmptied.pop = .error Fault.OutOfBounds ∧
      simple_restorable_stack.exEmptied.pop ≠ .error Fault.Underflow := by
  decide

/-- C4 (underflow on `top`).  In every reachable state, `top()` fails with Underflow exactly
when `size()` is 0 and fails in no other way; when it succeeds, the `pop()` that follows
succeeds and returns the same element.  `top` is a function of the state: it changes
nothing. -/
theorem C4_top_underflow_iff_size_zero {T : Type} [DecidableEq T]
    (s : simple_restorable_stack T) (hr : s.Reachable) :
    (s.top = .error Fault.Underflow ↔ s.size = 0) ∧
      (∀ e, s.top = .error e → e = Fault.Underflow) ∧
      (∀ x, s.top = .ok x → ∃ s1, s.pop = .ok (x, s1)) := by
  obtain ⟨i1, i2, i3, i4⟩ := hr.inv
  by_cases hps : s._pos = s._save
  · have hv : s._save ≠ InvalidIndex := by omega
    obtain ⟨j1, j2, -⟩ := i4 hv
    have hsize : s.size = s._jump := by
      unfold simple_restorable_stack.size
      rw [if_pos (by omega)]
      simp only [wsub, wordSize, InvalidIndex] at *
      omega
    by_cases hj : s._jump > 0
    · have hd : wdec s._jump = s._jump - 1 := by
        simp only [wdec, wordSize, InvalidIndex] at *
        omega
      obtain ⟨y, hb⟩ : ∃ y, s._buffer[s._jump - 1]? = some y :=
        ⟨_, List.getElem?_eq_getElem (by omega)⟩
      have htop : s.top = .ok y := by
        unfold simple_restorable_stack.top
        rw [if_pos hps, if_neg (by omega), hd, hb]
      rw [htop, hsize]
      refine ⟨⟨fun h => by simp at h, fun h => by omega⟩, fun e h => by simp at h, ?_⟩
      intro x hx
      simp only [Except.ok.injEq] at hx
      subst hx
      refine ⟨_, simple_restorable_stack.pop_ok_iff.mpr ⟨by omega, ?_, rfl⟩⟩
      rw [if_pos hps, hd, hb]
    · have htop : s.top = .error Fault.Underflow := by
        unfold simple_restorable_stack.top
        rw [if_pos hps, if_pos hj]
      rw [htop, hsize]
      refine ⟨⟨fun _ => by omega, fun _ => rfl⟩, fun e h => ?_, fun x h => by simp at h⟩
      simp only [Except.error.injEq] at h
      exact h.symm
  · by_cases hp : s._pos > 0
    · have hd : wdec s._pos = s._pos - 1 := by
        simp only [wdec, wordSize, InvalidIndex] at *
        omega
      obtain ⟨y, hb⟩ : ∃ y, s._buffer[s._pos - 1]? = some y :=
        ⟨_, List.getElem?_eq_getElem (by omega)⟩
      have htop : s.top = .ok y := by
        unfold simple_restorable_stack.top
        rw [if_neg hps, if_neg (by omega), hd, hb]
      have hsize : s.size ≠ 0 := by
        unfold simple_restorable_stack.size
        by_cases hge : s._pos ≥ s._save
        · have hv : s._save ≠ InvalidIndex := by omega
          obtain ⟨j1, j2, -⟩ := i4 hv
          rw [if_pos hge]
          simp only [wsub, wordSize, InvalidIndex] at *
          omega
        · rw [if_neg hge]
          omega
      rw [htop]
      refine ⟨⟨fun h => by simp at h, fun h => absurd h hsize⟩, fun e h => by simp at h, ?_⟩
      intro x hx
      simp only [Except.ok.injEq] at hx
      subst hx
      refine ⟨_, simple_restorable_stack.pop_ok_iff.mpr ⟨by omega, ?_, rfl⟩⟩
      rw [if_neg hps, hd, hb]
    · have htop : s.top = .error Fault.Underflow := by
        unfold simple_restorable_stack.top
        rw [if_neg hps, if_pos hp]
      have hsize : s.size = 0 := by
        unfold simple_restorable_stack.size
        rw [if_neg (by omega)]
        omega
      rw [htop, hsize]
      refine ⟨⟨fun _ => rfl, fun _ => rfl⟩, fun e h => ?_, fun x h => by simp at h⟩
      simp only [Except.error.injEq] at h
      exact h.symm

/-- The instance of C4 in a state where `top` relocates: after `push 1`, `push 2`, `save`,
`pop`, `push 3`, `pop` the cursor is at the snapshot index, `size()` is 1, and `top()`
returns the element `1` below the bypassed slot, as the next `pop()` does. -/
theorem C4_top_underflow_iff_size_zero_witness :
    ((simple_restorable_stack.exRelocated.top = .error Fault.Underflow ↔
        simple_restorable_stack.exRelocated.size = 0) ∧
      (∀ e, simple_restorable_stack.exRelocated.top = .error e → e = Fault.Underflow) ∧
      (∀ x, simple_restorable_stack.exRelocated.top = .ok x →
        ∃ s1, simple_restorable_stack.exRelocated.pop = .ok (x, s1))) ∧
    simple_restorable_stack.exRelocated.top = .ok 1 ∧
    simple_restorable_stack.exRelocated.size = 1 :=
  ⟨C4_top_underflow_iff_size_zero simple_restorable_stack.exRelocated
      ⟨[0, 0, 0, 0, 0], 0, [.push 1, .push 2, .save, .pop, .push 3, .pop], by decide, by decide⟩,
    by decide, by decide⟩

/-- C5 (size across `forget`), evaluated where it fails.  With `n = 2` elements, `save`, one
`pop`, one `push` (`p = 1`, `q = 1`) give `size() = 2`; the `forget()` that follows leaves
`_pos = 3` and clears `_save`, so `size()` returns 3 and not `n + p - q = 2`: the slot that
`forget` overwrote with the null value is counted. -/
theorem C5_size_after_forget_counts_tombstone :
    (simple_restorable_stack.create [0, 0, 0, 0, 0] 5 0).run [.push 1, .push 2]
        = .ok simple_restorable_stack.exAB ∧
      simple_restorable_stack.exAB.size = 2 ∧
      simple_restorable_stack.exAB.run [.save, .pop, .push 3]
        = .ok simple_restorable_stack.exSavedPopPush ∧
      simple_restorable_stack.exSavedPopPush.size = 2 ∧
      simple_restorable_stack.exSavedPopPush.forget = .ok simple_restorable_stack.exForgotten ∧
      simple_restorable_stack.exForgotten.size = 3 := by
  decide

/-- C6 (tombstones and `pop`), evaluated where it fails.  After `push 1`, `push 2`, `save`,
`pop`, `push 3`, `forget`, `pop` (the null value `0` was never pushed) both `top()` and
`pop()` succeed and return the null value that `forget` wrote into slot 1. -/
theorem C6_pop_returns_tombstone :
    (simple_restorable_stack.create [0, 0, 0, 0, 0] 5 0).run
        [.push 1, .push 2, .save, .pop, .push 3, .forget, .pop]
        = .ok simple_restorable_stack.exForgottenPopped ∧
      simple_restorable_stack.exForgottenPopped.top
        = .ok simple_restorable_stack.exForgottenPopped._null ∧
      simple_restorable_stack.exForgottenPopped.pop.map Prod.fst
        = .ok simple_restorable_stack.exForgottenPopped._null := by
  decide

/-- C7 (iteration), evaluated where it fails.  After `push 1`, `push 2`, `save`, `pop`,
`push 3`, `pop` the logical stack is `[1]` and `top()` is `1`, but the first call of `iter`
from a null iterator yields slot 1, which holds the bypassed element `2`; the iteration
produces `2, 1` and not `1`. -/
theorem C7_iteration_starts_in_bypassed_region :
    (simple_restorable_stack.create [0, 0, 0, 0, 0] 5 0).run
        [.push 1, .push 2, .save, .pop, .push 3, .pop]
        = .ok simple_restorable_stack.exRelocated ∧
      simple_restorable_stack.exRelocated.logical = [1] ∧
      simple_restorable_stack.exRelocated.logical_iteration = [1] ∧
      simple_restorable_stack.exRelocated.top = .ok 1 ∧
      simple_restorable_stack.exRelocated.iter none = .ok (true, some 1) ∧
      simple_restorable_stack.exRelocated._buffer[1]? = some 2 ∧
      simple_restorable_stack.exRelocated.iterate 5 none = [2, 1] := by
  decide

/-- C8 (null reservation on the generic engine).  In every state, whatever the capacity
and the snapshot state, `push` of the stack's null value fails with InvalidArgument, and
the state in which the failing call leaves the stack is the state it found: no field and
no buffer slot is modified.  (A `push` that fails by overflow is different: it may have
moved `_pos` and `_jump` before its assertion fires, see `push_exec_overflow_relocates`.) -/
theorem C8_push_null_invalid_argument {T : Type} [DecidableEq T]
    (s : simple_restorable_stack T) :
    s.push s._null = .error Fault.InvalidArgument ∧
      s.push_exec s._null = (s, .error Fault.InvalidArgument) := by
  constructor
  · simp [simple_restorable_stack.push]
  · simp [simple_restorable_stack.push_exec]

/-- C9 (null reservation on the evaluation stack), evaluated where it fails.
`basic_eval_stack::push` has no assertion on its argument: it never fails with
InvalidArgument, and on a new stack of capacity 2 `push` of the none value succeeds and
stores the none value in slot 0. -/
theorem C9_eval_push_accepts_none :
    (∀ (s : basic_eval_stack) (v : value), s.push v ≠ .error Fault.InvalidArgument) ∧
      value.none_value.is_none = true ∧
      (basic_eval_stack.create
          [{ tag := data_type.other 0, payload := 5 }, { tag := data_type.other 0, payload := 5 }]
          2).push value.none_value = .ok basic_eval_stack.exNonePushed ∧
      basic_eval_stack.exNonePushed._stack[0]? = some value.none_value := by
  refine ⟨?_, by decide, by decide, by decide⟩
  intro s v h
  unfold basic_eval_stack.push at h
  dsimp only at h
  split_ifs at h <;> simp at h

/-- C10 (variable lookup), evaluated where it fails.  With boundary name 0 and a variable
named 1, on a call stack of capacity 4: after `push_frame(10, tunnel)`, `set(1, 1)`, `save`,
`pop_frame`, `push_frame(20, function)`, `pop_frame` the cursor is at the snapshot index
and `_jump` is 0, so the logical stack is empty and lookup in it finds nothing; `get`
starts at `_pos - 1` without the relocation, inside the bypassed region, and returns the
value 1 of the frame that the first `pop_frame` removed. -/
theorem C10_get_returns_bypassed_entry :
    (basic_stack.create (List.replicate 4 basic_stack.exSlot) 4).run 0 (basic_stack.exCalls 0)
        = .ok (basic_stack.exFrameGone 0 basic_stack.exSlot) ∧
      (basic_stack.exFrameGone 0 basic_stack.exSlot).logical = [] ∧
      basic_stack.lookup 0 1 (basic_stack.exFrameGone 0 basic_stack.exSlot).logical.reverse
        = none ∧
      (basic_stack.exFrameGone 0 basic_stack.exSlot).get_value 0 1
        = .ok (some (basic_stack.exNumber 1)) := by
  decide

/-- C11 (`pop_frame` removes the topmost logical frame), evaluated where it fails.  After
`push_frame(5, tunnel)`, `push_frame(10, function)`, `set(1, 1)`, `save`, `pop_frame`
(returns 10), `push_frame(20, tunnel)`, `pop_frame` (returns 20) the cursor is at the
snapshot index, the logical stack is the frame record 5 alone and that is its topmost
boundary; `pop_frame` decrements `_pos` into the bypassed region without the relocation and
returns the frame record 10 a second time, leaving a logical stack that still holds the
frame record 5. -/
theorem C11_pop_frame_returns_removed_frame :
    ((basic_stack.create (List.replicate 5 basic_stack.exSlot) 5).run 0
        [.push_frame 5 frame_type.tunnel, .push_frame 10 frame_type.function,
          .set 1 (basic_stack.exNumber 1), .save]).bind
        (fun s => (s.pop_frame 0).map fun r => (r.1, r.2.1))
        = .ok (10, frame_type.function) ∧
      (basic_stack.create (List.replicate 5 basic_stack.exSlot) 5).run 0
        [.push_frame 5 frame_type.tunnel, .push_frame 10 frame_type.function,
          .set 1 (basic_stack.exNumber 1), .save, .pop_frame,
          .push_frame 20 frame_type.tunnel, .pop_frame] = .ok basic_stack.exOuterFrame ∧
      basic_stack.exOuterFrame.logical
        = [{ name := 0, data := value.frame 5 data_type.tunnel_frame }] ∧
      basic_stack.top_frame 0 basic_stack.exOuterFrame
        = some { name := 0, data := value.frame 5 data_type.tunnel_frame } ∧
      basic_stack.exOuterFrame.pop_frame 0
        = .ok (10, frame_type.function, basic_stack.exOuterFrameLeft) ∧
      basic_stack.exOuterFrameLeft.logical
        = [{ name := 0, data := value.frame 5 data_type.tunnel_frame }] := by
  decide

/-- C12 (frame push/pop round trip).  In every reachable state of `basic_stack`, whether or
not a snapshot is outstanding: `push_frame(r, k)` fails only by overflow, and when it
succeeds, the `pop_frame()` that follows succeeds and returns the offset `r` and the kind
`k`. -/
theorem C12_push_frame_pop_frame_round_trip (InvalidHash : Nat) (s : basic_stack)
    (hr : basic_stack.Reachable InvalidHash s) (r : Nat) (k : frame_type) :
    (∀ e, s.push_frame InvalidHash r k = .error e → e = Fault.Overflow) ∧
      ∀ s1, s.push_frame InvalidHash r k = .ok s1 →
        ∃ s2, s1.pop_frame InvalidHash = .ok (r, k, s2) := by
  have hb := basic_stack.bs_Reachable_bounded hr
  refine ⟨fun e he => basic_stack.bs_add_error hb he, fun s1 h => ?_⟩
  obtain ⟨s2, h2⟩ := basic_stack.bs_pop_frame_after_add hb h
  refine ⟨s2, ?_⟩
  rw [h2]
  cases k <;> simp [value.frame, value.as_divert, value.data_type]

/-- The scenario of C12, with boundary name 0 and `x` the name 1: after
`push_frame(10, tunnel)`, `set(x, 1)` the call `push_frame(20, function)` succeeds and
`pop_frame` returns `(20, function)`; the next `pop_frame` returns `(10, tunnel)`, and
`has_frame` is then false. -/
theorem C12_push_frame_pop_frame_round_trip_witness :
    (∃ s2, basic_stack.exTwoFrames.pop_frame 0 = .ok (20, frame_type.function, s2)) ∧
    (basic_stack.exTwoFrames.pop_frame 0).bind
        (fun a => (a.2.2.pop_frame 0).bind fun b =>
          (b.2.2.has_frame 0).map fun f => (a.1, a.2.1, b.1, b.2.1, f))
      = .ok (20, frame_type.function, 10, frame_type.tunnel, false) :=
  ⟨(C12_push_frame_pop_frame_round_trip 0 basic_stack.exOneFrame
      ⟨List.replicate 4 basic_stack.exSlot,
        [.push_frame 10 frame_type.tunnel, .set 1 (basic_stack.exNumber 1)],
        by decide, by decide⟩
      20 frame_type.function).2 basic_stack.exTwoFrames (by decide),
    by decide⟩

/-- C13 (frame scoping).  In every reachable state of `basic_stack` and for every name
other than the boundary name: right after a successful `push_frame(r, k)`, `get(name)`
returns not found, whatever lies below and whether or not a snapshot is outstanding.  More
generally, when `get` returns an entry, that entry bears the name and none of the slots
the walk has read holds a boundary entry: the walk ends, with not found, at the first
boundary entry it reads. -/
theorem C13_get_stops_at_frame_boundary (InvalidHash : Nat) (s : basic_stack)
    (hr : basic_stack.Reachable InvalidHash s) (name : Nat) (hn : name ≠ InvalidHash) :
    (∀ (r : Nat) (k : frame_type) (s1 : basic_stack),
      s.push_frame InvalidHash r k = .ok s1 →
        s1.get InvalidHash name = .ok none ∧ s1.get_value InvalidHash name = .ok none) ∧
    (∀ j, s.get InvalidHash name = .ok (some j) →
      j ∈ basic_stack.get_visited InvalidHash s name (s._stack.length + 1) s._pos ∧
      (∃ e, s._stack[j]? = some e ∧ e.name = name) ∧
      ∀ k ∈ basic_stack.get_visited InvalidHash s name (s._stack.length + 1) s._pos,
        ∀ e, s._stack[k]? = some e → e.name ≠ InvalidHash) := by
  constructor
  · intro r k s1 h
    have hb := basic_stack.bs_Reachable_bounded hr
    obtain ⟨q, hq, -, -, hst, hpos, -, -⟩ := basic_stack.bs_add_spec hb h
    have hg := (basic_stack.bs_get_after_add InvalidHash name hb hq hst hpos).2.2
      (fun hx => hn hx.symm) rfl
    refine ⟨hg, ?_⟩
    unfold basic_stack.get_value
    rw [hg]
  · intro j h
    unfold basic_stack.get at h
    split_ifs at h
    · simp at h
    · exact basic_stack.bs_get_loop_visited hn _ _ j h

/-- The scenario of C13, with boundary name 0 and `x` the name 1: after
`push_frame(10, tunnel)`, `set(x, 1)`, `push_frame(20, function)` the call `get(x)` returns
not found. -/
theorem C13_get_stops_at_frame_boundary_witness :
    basic_stack.exTwoFrames.get 0 1 = .ok none ∧
      basic_stack.exTwoFrames.get_value 0 1 = .ok none ∧
      basic_stack.exOneFrame.get_value 0 1 = .ok (some (basic_stack.exNumber 1)) :=
  ⟨((C13_get_stops_at_frame_boundary 0 basic_stack.exOneFrame
        ⟨List.replicate 4 basic_stack.exSlot,
          [.push_frame 10 frame_type.tunnel, .set 1 (basic_stack.exNumber 1)],
          by decide, by decide⟩
        1 (by decide)).1 20 frame_type.function basic_stack.exTwoFrames (by decide)).1,
    by decide, by decide⟩

/-- C14 (`has_frame`), evaluated where it fails.  After `push_frame(10, tunnel)`,
`set(1, 1)`, `save`, `pop_frame`, `push_frame(20, function)`, `pop_frame` the logical stack
is empty, so it contains no boundary entry; `has_frame` starts at `_pos - 1` inside the
bypassed region, walks down to the boundary entry in slot 0 and returns true. -/
theorem C14_has_frame_sees_bypassed_boundary :
    (basic_stack.create (List.replicate 4 basic_stack.exSlot) 4).run 0 (basic_stack.exCalls 0)
        = .ok (basic_stack.exFrameGone 0 basic_stack.exSlot) ∧
      (basic_stack.exFrameGone 0 basic_stack.exSlot).logical = [] ∧
      basic_stack.logical_has_frame 0 (basic_stack.exFrameGone 0 basic_stack.exSlot) = false ∧
      (basic_stack.exFrameGone 0 basic_stack.exSlot).has_frame 0 = .ok true := by
  decide

/-- C15 (`set` under a snapshot only appends).  In every reachable state of `basic_stack`
with a snapshot outstanding: `set(name, value)` fails only by overflow, and when it
succeeds it writes the entry `(name, value)` into one slot `q`, at or above `_save` and at
or above `_pos`, and leaves every other slot as it was (so every slot below `_save` and
every slot below `_pos`, also one that bears the same name); the `get(name)` that follows
returns the entry in slot `q`, whose value is `value`. -/
theorem C15_set_under_snapshot_appends (InvalidHash : Nat) (s : basic_stack)
    (hr : basic_stack.Reachable InvalidHash s) (hs : s._save ≠ InvalidIndex)
    (name : Nat) (val : value) :
    (∀ e, s.set InvalidHash name val = .error e → e = Fault.Overflow) ∧
      ∀ s1, s.set InvalidHash name val = .ok s1 →
        ∃ q, s._save ≤ q ∧ s._pos ≤ q ∧ q < s._size ∧
          s1._stack[q]? = some { name := name, data := val } ∧
          (∀ i, i ≠ q → s1._stack[i]? = s._stack[i]?) ∧
          s1._stack.length = s._stack.length ∧
          s1.get InvalidHash name = .ok (some q) ∧
          s1.get_value InvalidHash name = .ok (some val) := by
  have hb := basic_stack.bs_Reachable_bounded hr
  have hset : s.set InvalidHash name val = s.add name val := by
    unfold basic_stack.set
    rw [if_pos hs]
  rw [hset]
  refine ⟨fun e he => basic_stack.bs_add_error hb he, fun s1 hadd => ?_⟩
  obtain ⟨q, hq, hpq, hsq, hst, hpos, -, -⟩ := basic_stack.bs_add_spec hb hadd
  obtain ⟨hget, hg, -⟩ := basic_stack.bs_get_after_add InvalidHash name hb hq hst hpos
  refine ⟨q, hsq hs, hpq, hq, hget, ?_, ?_, hg rfl, ?_⟩
  · intro i hi
    rw [hst, List.getElem?_set_ne (fun hx => hi hx.symm)]
  · rw [hst, List.length_set]
  · unfold basic_stack.get_value
    rw [hg rfl]
    simp only [hget]

/-- An instance of C15, with boundary name 0: after `push_frame(10, tunnel)`, `set(1, 1)`,
`save` the call `set(1, 2)` leaves the entry `(1, 1)` in slot 1 and writes `(1, 2)` into
slot 2, and `get(1)` then returns the value 2. -/
theorem C15_set_under_snapshot_appends_witness :
    (∃ q, basic_stack.exOneFrameSaved._save ≤ q ∧ basic_stack.exOneFrameSaved._pos ≤ q ∧
      q < basic_stack.exOneFrameSaved._size ∧
      basic_stack.exShadowed._stack[q]? = some { name := 1, data := basic_stack.exNumber 2 } ∧
      (∀ i, i ≠ q → basic_stack.exShadowed._stack[i]? = basic_stack.exOneFrameSaved._stack[i]?) ∧
      basic_stack.exShadowed._stack.length = basic_stack.exOneFrameSaved._stack.length ∧
      basic_stack.exShadowed.get 0 1 = .ok (some q) ∧
      basic_stack.exShadowed.get_value 0 1 = .ok (some (basic_stack.exNumber 2))) ∧
    basic_stack.exShadowed._stack[1]? = some { name := 1, data := basic_stack.exNumber 1 } ∧
    basic_stack.exShadowed.get 0 1 = .ok (some 2) :=
  ⟨(C15_set_under_snapshot_appends 0 basic_stack.exOneFrameSaved
      ⟨List.replicate 4 basic_stack.exSlot,
        [.push_frame 10 frame_type.tunnel, .set 1 (basic_stack.exNumber 1), .save],
        by decide, by decide⟩
      (by decide) 1 (basic_stack.exNumber 2)).2 basic_stack.exShadowed (by decide),
    by decide, by decide⟩

/-- C16 (evaluation-stack `pop`), evaluated where it fails.  On a stack of capacity 3 whose
slots hold the none value at first, after `push 5`, `push 7` the logical stack is `5, 7`
and its topmost value that is not none is 7.  `pop` tests the slot at `_pos` (slot 2,
above the top, still none), decrements, finds slot 1 not none, decrements again and
returns slot 0: the value 5, with `_pos = 0`. -/
theorem C16_eval_pop_skips_the_top :
    (basic_eval_stack.create (List.replicate 3 value.none_value) 3).run
        [.push (basic_stack.exNumber 5), .push (basic_stack.exNumber 7)]
        = .ok basic_eval_stack.exTwoValues ∧
      basic_eval_stack.exTwoValues.logical
        = [basic_stack.exNumber 5, basic_stack.exNumber 7] ∧
      basic_eval_stack.exTwoValues.logical_top = some (basic_stack.exNumber 7) ∧
      basic_eval_stack.exTwoValues.pop
        = .ok (basic_stack.exNumber 5, basic_eval_stack.exTwoValuesPopped) := by
  decide

/-- C17 (evaluation-stack `top`), evaluated where it fails.  On a stack of capacity 5 whose
slots hold the number 0 at first, after `push 5`, `push 7`, `save`, `pop`, `push 8`, `pop`
(only values that are not none are pushed) the cursor is at the snapshot index with
`_jump = 1`; the logical stack is `5`.  `top` returns slot `_pos - 1`, the bypassed value
7; the `pop` that follows relocates and returns 5. -/
theorem C17_eval_top_ignores_relocation :
    (basic_eval_stack.create (List.replicate 5 (basic_stack.exNumber 0)) 5).run
        [.push (basic_stack.exNumber 5), .push (basic_stack.exNumber 7), .save, .pop,
          .push (basic_stack.exNumber 8), .pop] = .ok basic_eval_stack.exRelocated ∧
      basic_eval_stack.exRelocated.logical = [basic_stack.exNumber 5] ∧
      basic_eval_stack.exRelocated.top = .ok (basic_stack.exNumber 7) ∧
      basic_eval_stack.exRelocated.pop.map Prod.fst = .ok (basic_stack.exNumber 5) := by
  decide

/-- C18 (`size()` step by step), evaluated where it fails.  After `push 1`, `push 2`,
`save`, `pop`, `push 3`, `forget`, `pop` the only element pushed and not yet popped is 1,
but `size()` is 2 and `pop()` returns the null value 0, which was never pushed: the slot
that `forget` overwrote lies below `_pos`.  The steps of `size()` themselves hold in every
reachable state (`size_push`, `size_pop`), and so does `push` followed by `pop`
(`pop_push`). -/
theorem C18_pop_after_forget_is_not_last_pushed :
    (simple_restorable_stack.create [0, 0, 0, 0, 0] 5 0).run
        [.push 1, .push 2, .save, .pop, .push 3, .forget, .pop]
        = .ok simple_restorable_stack.exForgottenPopped ∧
      (simple_restorable_stack.pushed_not_popped
        [.push 1, .push 2, .save, .pop, .push 3, .forget, .pop]).1 = [1] ∧
      simple_restorable_stack.exForgottenPopped.size = 2 ∧
      simple_restorable_stack.exForgottenPopped.pop.map Prod.fst = .ok 0 ∧
      (simple_restorable_stack.exForgottenPopped.pop.bind fun r => r.2.pop.map Prod.fst)
        = .ok 1 := by
  decide

/-- C19 (index invariant) fails as stated.  After `save`, `forget` on a new stack no
snapshot is outstanding and `_save` is `InvalidIndex`, but `_jump` is still 0: `forget`
resets `_save` only. -/
theorem C19_forget_leaves_jump_index :
    (simple_restorable_stack.create [0, 0] 2 0).run [.save, .forget]
        = .ok simple_restorable_stack.exJumpLeft ∧
      simple_restorable_stack.outstanding
        ([.save, .forget] : List (simple_restorable_stack.Op Nat)) = false ∧
      ¬ (simple_restorable_stack.exJumpLeft._save = InvalidIndex ∧
          simple_restorable_stack.exJumpLeft._jump = InvalidIndex) := by
  decide

/-- C19 (index invariant), amended.  In every state reached from construction over a buffer
of `capacity` slots by calls none of which failed: `0 <= _pos <= capacity`; `_save` is
`InvalidIndex` exactly when no snapshot is outstanding; `_jump` is `InvalidIndex` exactly
when the last of the calls `save`, `restore`, `clear` is not a `save` (`forget` leaves
`_jump` as it was); an index that is not `InvalidIndex` is at most `capacity`, which is
below `InvalidIndex`; and when a snapshot is outstanding both are valid indices with
`_jump <= _save <= capacity`. -/
theorem C19_index_invariant {T : Type} [DecidableEq T] (buffer : List T) (null : T)
    (ops : List (simple_restorable_stack.Op T)) (s : simple_restorable_stack T)
    (hlen : buffer.length < InvalidIndex)
    (hrun : (simple_restorable_stack.create buffer buffer.length null).run ops = .ok s) :
    s._pos ≤ s._size ∧ s._size = buffer.length ∧ s._size < InvalidIndex ∧
      (s._save = InvalidIndex ↔ simple_restorable_stack.outstanding ops = false) ∧
      (s._jump = InvalidIndex ↔ simple_restorable_stack.jump_set ops = false) ∧
      (s._save ≠ InvalidIndex → s._save ≤ s._size) ∧
      (s._jump ≠ InvalidIndex → s._jump ≤ s._size) ∧
      (simple_restorable_stack.outstanding ops = true →
        s._jump ≠ InvalidIndex ∧ s._save ≠ InvalidIndex ∧
          s._jump ≤ s._save ∧ s._save ≤ s._size) := by
  have hi0 := simple_restorable_stack.Inv_create buffer null hlen
  obtain ⟨i1, i2, i3, i4⟩ := simple_restorable_stack.Inv_run ops hi0 hrun
  have hk := simple_restorable_stack.save_tracks_outstanding ops false hi0
    (by simp [simple_restorable_stack.create]) hrun
  obtain ⟨hj, hjle⟩ := simple_restorable_stack.jump_tracks_jump_set ops false hi0
    (by simp [simple_restorable_stack.create]) hrun
  have hcap : s._size = buffer.length := simple_restorable_stack.capacity_run ops hrun
  have hk1 : s._save ≠ InvalidIndex ↔ simple_restorable_stack.outstanding ops = true := hk
  have hj1 : s._jump ≠ InvalidIndex ↔ simple_restorable_stack.jump_set ops = true := hj
  refine ⟨i1, hcap, i3, ?_, ?_, fun hv => (i4 hv).2.1, hjle, ?_⟩
  · rw [← Bool.not_eq_true, ← hk1, not_not]
  · rw [← Bool.not_eq_true, ← hj1, not_not]
  · intro ho
    have hv := hk1.mpr ho
    obtain ⟨j1, j2, -⟩ := i4 hv
    exact ⟨by omega, hv, j1, j2⟩

/-- An instance of C19: after `push 1`, `push 2`, `save`, `pop`, `push 3` on a stack of
capacity 5 a snapshot is outstanding, `_jump = 1` and `_save = 2`. -/
theorem C19_index_invariant_witness :
    simple_restorable_stack.exSavedPopPush._pos ≤ simple_restorable_stack.exSavedPopPush._size ∧
      simple_restorable_stack.exSavedPopPush._jump ≤
        simple_restorable_stack.exSavedPopPush._save ∧
      simple_restorable_stack.exSavedPopPush._save ≤
        simple_restorable_stack.exSavedPopPush._size ∧
      simple_restorable_stack.exSavedPopPush._save ≠ InvalidIndex :=
  have h := C19_index_invariant [0, 0, 0, 0, 0] 0 [.push 1, .push 2, .save, .pop, .push 3]
    simple_restorable_stack.exSavedPopPush (by decide) (by decide)
  ⟨h.1, (h.2.2.2.2.2.2.2 (by decide)).2.2.1, (h.2.2.2.2.2.2.2 (by decide)).2.2.2,
    (h.2.2.2.2.2.2.2 (by decide)).2.1⟩

/-- C20 (`forget` on the evaluation stack), evaluated where it fails.  On a stack of
capacity 6 whose slots hold the none value at first, after `push 1`, `push 2`, `push 3`,
`save`, `pop`, `push 4`, `pop` a snapshot is outstanding with `_pos = 2`, `_save = 3`,
`_jump = 1`: neither `_pos >= _save` nor `_pos < _jump`.  The guard of `forget` is true
and `forget` writes the none value into the slots 1 and 2. -/
theorem C20_eval_forget_writes_tombstones :
    (basic_eval_stack.create (List.replicate 6 value.none_value) 6).run
        [.push (basic_stack.exNumber 1), .push (basic_stack.exNumber 2),
          .push (basic_stack.exNumber 3), .save, .pop, .push (basic_stack.exNumber 4), .pop]
        = .ok basic_eval_stack.exInside ∧
      ¬ (basic_eval_stack.exInside._pos ≥ basic_eval_stack.exInside._save ∨
          basic_eval_stack.exInside._pos < basic_eval_stack.exInside._jump) ∧
      basic_eval_stack.exInside.forget = .ok basic_eval_stack.exInsideForgotten ∧
      basic_eval_stack.exInsideForgotten._stack[1]? = some value.none_value ∧
      basic_eval_stack.exInside._stack[1]? = some (basic_stack.exNumber 2) := by
  decide

end ink
